import Mathlib

/-!
# ProdForce: force accumulation kernel (`source/op/prod_force.cc`)

A shallow embedding of `ProdForceOp` and a verification development over it.

Modelling conventions.
* `VALUETYPE` arithmetic is taken exact: values live in an arbitrary commutative ring `R`.
* C++ `int` / `int64` values are integers (`Int`); `/` and `%` are the truncating
  `Int.tdiv` and `Int.tmod`.  The initialisation of an `int` from an `int64` (lines 68, 71
  and 72) is the conversion `to_int32`, the value modulo `2^32` in `[-2^31, 2^31)`.
  Arithmetic on `int`s is exact: signed overflow is undefined behaviour in C++ and the
  embedding describes the runs without it.  Integer division by zero (undefined behaviour
  as well) is the separate failure `Status.DivisionByZero`.
* A tensor is its shape together with its flat view `flat<T>()`, a function of the flat index.
* The output buffer is explicit state: `allocate_output` is taken to succeed and hands back
  memory whose initial contents are a parameter of `Compute`; the buffer is a function of the
  flat index, so that indices outside the allocated extent can be observed rather than
  excluded.  The state also records, as a ghost log, the flat indices that were written.
* The frame loop is executed sequentially, frames in increasing order, in `kernel`; the
  sharing of the iterators by the workers of the parallel loop is modelled apart, by events
  on a shared state (`run_events`).
-/

namespace ProdForce

/-! ## Data model -/

/-- Failure outcomes of `Compute`. -/
inductive Status where
  | InvalidArgument (msg : String)
  | DivisionByZero
  deriving DecidableEq

/-- A tensor: its dimension sizes and its flat (row-major) view. -/
structure Tensor (α : Type) where
  shape : List Nat
  flat : Int → α

/-- The call `shape().dims()`. -/
def Tensor.dims {α : Type} (t : Tensor α) : Int := (t.shape.length : Int)

/-- The call `shape().dim_size(i)`. -/
def Tensor.dim_size {α : Type} (t : Tensor α) (i : Nat) : Int := ((t.shape.getD i 0 : Nat) : Int)

/-- The five inputs of the op, in the order of `context->input(0..4)`. -/
structure Inputs (R : Type) where
  net_deriv : Tensor R
  in_deriv : Tensor R
  nlist : Tensor Int
  axis : Tensor Int
  natoms : Tensor Int

/-- The private fields of `ProdForceOp` (line 172). -/
structure ProdForceOp where
  n_r_sel : Int
  n_a_sel : Int
  n_a_shift : Int
  num_threads : Int

/-- The constructor (lines 43-48): reads the three attributes and sets
`n_a_shift = n_a_sel * 4`. -/
def ProdForceOp.construct (n_a_sel n_r_sel num_threads : Int) : ProdForceOp :=
  ⟨n_r_sel, n_a_sel, n_a_sel * 4, num_threads⟩

/-- The sizes derived on lines 68-72. -/
structure Dims where
  nframes : Int
  nloc : Int
  nall : Int
  ndescrpt : Int
  nnei : Int
  deriving DecidableEq

/-- The per-frame offsets set on lines 107-111. -/
structure Iters where
  force_iter : Int
  net_iter : Int
  in_iter : Int
  nlist_iter : Int
  axis_iter : Int

/-- The force buffer as explicit state: its contents by flat index, and the ghost log of the
flat indices written so far (most recent first). -/
structure ForceBuf (R : Type) where
  force : Int → R
  written : List Int

/-- The returned tensor: shape `[nframes, 3 * nall]` and flat contents. -/
structure Output (R : Type) where
  shape : List Int
  flat : Int → R

/-! ## Operations -/

section Kernel

variable {R : Type} [CommRing R]

set_option linter.unusedSectionVars false

/-- The assignment `force (idx) = v`. -/
def ForceBuf.assign (m : ForceBuf R) (idx : Int) (v : R) : ForceBuf R :=
  ⟨Function.update m.force idx v, idx :: m.written⟩

/-- The update `force (idx) -= v`. -/
def ForceBuf.subAssign (m : ForceBuf R) (idx : Int) (v : R) : ForceBuf R :=
  ⟨Function.update m.force idx (m.force idx - v), idx :: m.written⟩

/-- Iterations of a counting loop: `n` steps left, counter at `i`. -/
def forLoopAux {σ : Type} (body : Int → σ → σ) : Nat → Int → σ → σ
  | 0, _, s => s
  | n + 1, i, s => forLoopAux body n (i + 1) (body i s)

/-- The loop `for (int i = lo; i < hi; ++i) body`. -/
def forLoop {σ : Type} (lo hi : Int) (body : Int → σ → σ) (s : σ) : σ :=
  forLoopAux body (hi - lo).toNat lo s

/-- Lines 173-185, returning `(idx_start, idx_end)`. -/
def make_descript_range (op : ProdForceOp) (nei_idx : Int) : Int × Int :=
  if nei_idx < op.n_a_sel then
    (nei_idx * 4, nei_idx * 4 + 4)
  else
    (op.n_a_shift + (nei_idx - op.n_a_sel), op.n_a_shift + (nei_idx - op.n_a_sel) + 1)

/-- The three consecutive statements
`force (fo + d) -= net_deriv (ni) * in_deriv (jo + d)` for `d = 0, 1, 2`
(lines 126-128, 146-148, 153-155, 162-164). -/
def accum3 (net_deriv in_deriv : Int → R) (fo ni jo : Int) (force : ForceBuf R) : ForceBuf R :=
  let force := force.subAssign (fo + 0) (net_deriv ni * in_deriv (jo + 0))
  let force := force.subAssign (fo + 1) (net_deriv ni * in_deriv (jo + 1))
  force.subAssign (fo + 2) (net_deriv ni * in_deriv (jo + 2))

/-- Lines 113-118: zero the entries of the local slots of the frame. -/
def zero_local (dm : Dims) (it : Iters) (force : ForceBuf R) : ForceBuf R :=
  forLoop 0 dm.nloc (fun ii force =>
    let i_idx := ii
    let force := force.assign (it.force_iter + i_idx * 3 + 0) 0
    let force := force.assign (it.force_iter + i_idx * 3 + 1) 0
    force.assign (it.force_iter + i_idx * 3 + 2) 0) force

/-- Lines 125-129: derivative with respect to the center atom. -/
def center_term (inp : Inputs R) (dm : Dims) (it : Iters) (i_idx : Int)
    (force : ForceBuf R) : ForceBuf R :=
  forLoop 0 dm.ndescrpt (fun aa force =>
    accum3 inp.net_deriv.flat inp.in_deriv.flat
      (it.force_iter + i_idx * 3)
      (it.net_iter + i_idx * dm.ndescrpt + aa)
      (it.in_iter + i_idx * dm.ndescrpt * 12 + aa * 12) force) force

/-- Lines 132-137: the resolved `(axis_0, axis_1)` of atom `i_idx`. -/
def set_axes (op : ProdForceOp) (axis : Int → Int) (it : Iters) (i_idx : Int) : Int × Int :=
  let axis0_type := axis (it.axis_iter + i_idx * 4 + 0)
  let axis1_type := axis (it.axis_iter + i_idx * 4 + 2)
  let axis_0 := axis (it.axis_iter + i_idx * 4 + 1)
  let axis_1 := axis (it.axis_iter + i_idx * 4 + 3)
  let axis_0 := if axis0_type = 1 then axis_0 + op.n_a_sel else axis_0
  let axis_1 := if axis1_type = 1 then axis_1 + op.n_a_sel else axis_1
  (axis_0, axis_1)

/-- Lines 141-142: the target slot of neighbor slot `jj` of atom `i_idx`, after folding. -/
def target_slot (nlist : Int → Int) (dm : Dims) (it : Iters) (i_idx jj : Int) : Int :=
  let j_idx := nlist (it.nlist_iter + i_idx * dm.nnei + jj)
  if j_idx > dm.nloc then Int.tmod j_idx dm.nloc else j_idx

/-- Lines 141-166: the body of the loop over neighbor slots. -/
def neighbor_term (op : ProdForceOp) (inp : Inputs R) (dm : Dims) (it : Iters)
    (i_idx axis_0 axis_1 jj : Int) (force : ForceBuf R) : ForceBuf R :=
  let j_idx := target_slot inp.nlist.flat dm it i_idx jj
  if j_idx < 0 then force
  else if jj = axis_0 then
    forLoop 0 dm.ndescrpt (fun aa force =>
      accum3 inp.net_deriv.flat inp.in_deriv.flat
        (it.force_iter + j_idx * 3)
        (it.net_iter + i_idx * dm.ndescrpt + aa)
        (it.in_iter + i_idx * dm.ndescrpt * 12 + aa * 12 + 3) force) force
  else if jj = axis_1 then
    forLoop 0 dm.ndescrpt (fun aa force =>
      accum3 inp.net_deriv.flat inp.in_deriv.flat
        (it.force_iter + j_idx * 3)
        (it.net_iter + i_idx * dm.ndescrpt + aa)
        (it.in_iter + i_idx * dm.ndescrpt * 12 + aa * 12 + 6) force) force
  else
    let aa_start := (make_descript_range op jj).1
    let aa_end := (make_descript_range op jj).2
    forLoop aa_start aa_end (fun aa force =>
      accum3 inp.net_deriv.flat inp.in_deriv.flat
        (it.force_iter + j_idx * 3)
        (it.net_iter + i_idx * dm.ndescrpt + aa)
        (it.in_iter + i_idx * dm.ndescrpt * 12 + aa * 12 + 9) force) force

/-- Lines 122-167: the body of the loop over local atoms. -/
def atom_term (op : ProdForceOp) (inp : Inputs R) (dm : Dims) (it : Iters)
    (ii : Int) (force : ForceBuf R) : ForceBuf R :=
  let i_idx := ii
  let force := center_term inp dm it i_idx force
  let axis_0 := (set_axes op inp.axis.flat it i_idx).1
  let axis_1 := (set_axes op inp.axis.flat it i_idx).2
  forLoop 0 dm.nnei (fun jj force => neighbor_term op inp dm it i_idx axis_0 axis_1 jj force) force

/-- Lines 107-111: the offsets of frame `kk`. -/
def frame_iters (dm : Dims) (kk : Int) : Iters :=
  ⟨kk * dm.nloc * 3, kk * dm.nloc * dm.ndescrpt, kk * dm.nloc * dm.ndescrpt * 12,
    kk * dm.nloc * dm.nnei, kk * dm.nloc * 4⟩

/-- Lines 107-168: the body of the loop over frames. -/
def frame (op : ProdForceOp) (inp : Inputs R) (dm : Dims) (kk : Int)
    (force : ForceBuf R) : ForceBuf R :=
  let it := frame_iters dm kk
  let force := zero_local dm it force
  forLoop 0 dm.nloc (fun ii force => atom_term op inp dm it ii force) force

/-- Lines 106-169: the loop over frames. -/
def kernel (op : ProdForceOp) (inp : Inputs R) (dm : Dims) (force : ForceBuf R) : ForceBuf R :=
  forLoop 0 dm.nframes (fun kk force => frame op inp dm kk force) force

/-- The conversion of an `int64` value to `int`: the value modulo `2^32` in
`[-2^31, 2^31)`. -/
def to_int32 (x : Int) : Int :=
  if 2147483648 ≤ x % 4294967296 then x % 4294967296 - 4294967296 else x % 4294967296

/-- The check `OP_REQUIRES (context, cond, status)`. -/
def OP_REQUIRES (cond : Prop) [Decidable cond] (status : Status) : Except Status Unit :=
  if cond then Except.ok () else Except.error status

/-- Integer division `a / b` of C++: truncating, undefined for `b = 0`. -/
def idiv (a b : Int) : Except Status Int :=
  if b = 0 then Except.error Status.DivisionByZero else Except.ok (Int.tdiv a b)

/-- Lines 59-81: rank checks, derivation of the sizes, shape checks.  The sizes `nframes`,
`ndescrpt` and `nnei` are `int`s initialised from `int64` values. -/
def resolve (op : ProdForceOp) (inp : Inputs R) : Except Status Dims := do
  OP_REQUIRES (inp.net_deriv.dims = 2) (Status.InvalidArgument "Dim of net deriv should be 2")
  OP_REQUIRES (inp.in_deriv.dims = 2) (Status.InvalidArgument "Dim of input deriv should be 2")
  OP_REQUIRES (inp.nlist.dims = 2) (Status.InvalidArgument "Dim of nlist should be 2")
  OP_REQUIRES (inp.axis.dims = 2) (Status.InvalidArgument "Dim of axis should be 2")
  OP_REQUIRES (inp.natoms.dims = 1) (Status.InvalidArgument "Dim of natoms should be 1")
  OP_REQUIRES (inp.natoms.dim_size 0 ≥ 3)
    (Status.InvalidArgument "number of atoms should be larger than (or equal to) 3")
  let natoms := inp.natoms.flat
  let nframes := to_int32 (inp.net_deriv.dim_size 0)
  let nloc := natoms 0
  let nall := natoms 1
  let ndescrpt_wide ← idiv (inp.net_deriv.dim_size 1) nloc
  let ndescrpt := to_int32 ndescrpt_wide
  let nnei_wide ← idiv (inp.nlist.dim_size 1) nloc
  let nnei := to_int32 nnei_wide
  OP_REQUIRES (nframes = inp.in_deriv.dim_size 0)
    (Status.InvalidArgument "number of samples should match")
  OP_REQUIRES (nframes = inp.nlist.dim_size 0)
    (Status.InvalidArgument "number of samples should match")
  OP_REQUIRES (nframes = inp.axis.dim_size 0)
    (Status.InvalidArgument "number of samples should match")
  OP_REQUIRES (nloc * ndescrpt * 12 = inp.in_deriv.dim_size 1)
    (Status.InvalidArgument "number of descriptors should match")
  OP_REQUIRES (nnei = op.n_a_sel + op.n_r_sel)
    (Status.InvalidArgument "number of neighbors should match")
  OP_REQUIRES (nloc * 4 = inp.axis.dim_size 1)
    (Status.InvalidArgument "number of axis type+id should match 2+2")
  pure ⟨nframes, nloc, nall, ndescrpt, nnei⟩

/-- Lines 50-170.  `init` is the content of the memory handed back by `allocate_output`. -/
def Compute (op : ProdForceOp) (inp : Inputs R) (init : Int → R) : Except Status (Output R) := do
  let dm ← resolve op inp
  let force_shape := [dm.nframes, 3 * dm.nall]
  let force : ForceBuf R := ⟨init, []⟩
  let force := kernel op inp dm force
  pure ⟨force_shape, force.force⟩

/-! ## Accumulated amounts

Every update of the kernel after the zeroing loop is a subtraction of a value that does not
depend on the buffer, so each loop subtracts, at every flat index, a fixed total.  The
definitions below name these totals, following the loop structure of the source. -/

/-- The state transformer `F` subtracts `δ p` from the entry at every flat index `p`. -/
def Subtracts (F : ForceBuf R → ForceBuf R) (δ : Int → R) : Prop :=
  ∀ m p, (F m).force p = m.force p - δ p

/-- The amount `accum3` subtracts at flat index `p`. -/
def accum3_delta (net_deriv in_deriv : Int → R) (fo ni jo p : Int) : R :=
  (if p = fo + 0 then net_deriv ni * in_deriv (jo + 0) else 0)
    + (if p = fo + 1 then net_deriv ni * in_deriv (jo + 1) else 0)
    + (if p = fo + 2 then net_deriv ni * in_deriv (jo + 2) else 0)

/-- The Jacobian offset used for neighbor slot `jj` (lines 146, 153, 162). -/
def used_offset (axis_0 axis_1 jj : Int) : Int :=
  if jj = axis_0 then 3 else if jj = axis_1 then 6 else 9

/-- The descriptor components looped over for neighbor slot `jj` (lines 145, 152, 160-161). -/
def used_range (op : ProdForceOp) (dm : Dims) (axis_0 axis_1 jj : Int) : Finset Int :=
  if jj = axis_0 then Finset.Ico 0 dm.ndescrpt
  else if jj = axis_1 then Finset.Ico 0 dm.ndescrpt
  else Finset.Ico (make_descript_range op jj).1 (make_descript_range op jj).2

/-- The amount `center_term` subtracts at flat index `p`. -/
def center_delta (inp : Inputs R) (dm : Dims) (it : Iters) (i_idx p : Int) : R :=
  ∑ aa ∈ Finset.Ico 0 dm.ndescrpt,
    accum3_delta inp.net_deriv.flat inp.in_deriv.flat (it.force_iter + i_idx * 3)
      (it.net_iter + i_idx * dm.ndescrpt + aa)
      (it.in_iter + i_idx * dm.ndescrpt * 12 + aa * 12) p

/-- The amount `neighbor_term` subtracts at flat index `p`. -/
def neighbor_delta (op : ProdForceOp) (inp : Inputs R) (dm : Dims) (it : Iters)
    (i_idx axis_0 axis_1 jj p : Int) : R :=
  if target_slot inp.nlist.flat dm it i_idx jj < 0 then 0
  else ∑ aa ∈ used_range op dm axis_0 axis_1 jj,
    accum3_delta inp.net_deriv.flat inp.in_deriv.flat
      (it.force_iter + target_slot inp.nlist.flat dm it i_idx jj * 3)
      (it.net_iter + i_idx * dm.ndescrpt + aa)
      (it.in_iter + i_idx * dm.ndescrpt * 12 + aa * 12 + used_offset axis_0 axis_1 jj) p

/-- The amount `atom_term` subtracts at flat index `p`. -/
def atom_delta (op : ProdForceOp) (inp : Inputs R) (dm : Dims) (it : Iters) (i_idx p : Int) : R :=
  center_delta inp dm it i_idx p
    + ∑ jj ∈ Finset.Ico 0 dm.nnei,
        neighbor_delta op inp dm it i_idx (set_axes op inp.axis.flat it i_idx).1
          (set_axes op inp.axis.flat it i_idx).2 jj p

/-- The amount the accumulation loop of a frame subtracts at flat index `p`. -/
def frame_delta (op : ProdForceOp) (inp : Inputs R) (dm : Dims) (it : Iters) (p : Int) : R :=
  ∑ i ∈ Finset.Ico 0 dm.nloc, atom_delta op inp dm it i p

/-! ## Validation summary -/

/-- The conditions under which `resolve` succeeds. -/
def ShapesOk (op : ProdForceOp) (inp : Inputs R) : Prop :=
  inp.net_deriv.dims = 2 ∧ inp.in_deriv.dims = 2 ∧ inp.nlist.dims = 2 ∧ inp.axis.dims = 2
    ∧ inp.natoms.dims = 1 ∧ inp.natoms.dim_size 0 ≥ 3 ∧ inp.natoms.flat 0 ≠ 0
    ∧ to_int32 (inp.net_deriv.dim_size 0) = inp.in_deriv.dim_size 0
    ∧ to_int32 (inp.net_deriv.dim_size 0) = inp.nlist.dim_size 0
    ∧ to_int32 (inp.net_deriv.dim_size 0) = inp.axis.dim_size 0
    ∧ inp.natoms.flat 0
          * to_int32 (Int.tdiv (inp.net_deriv.dim_size 1) (inp.natoms.flat 0)) * 12
        = inp.in_deriv.dim_size 1
    ∧ to_int32 (Int.tdiv (inp.nlist.dim_size 1) (inp.natoms.flat 0))
        = op.n_a_sel + op.n_r_sel
    ∧ inp.natoms.flat 0 * 4 = inp.axis.dim_size 1

/-- The sizes `resolve` derives when it succeeds. -/
def derived_dims (inp : Inputs R) : Dims :=
  ⟨to_int32 (inp.net_deriv.dim_size 0), inp.natoms.flat 0, inp.natoms.flat 1,
    to_int32 (Int.tdiv (inp.net_deriv.dim_size 1) (inp.natoms.flat 0)),
    to_int32 (Int.tdiv (inp.nlist.dim_size 1) (inp.natoms.flat 0))⟩

/-! ## Reference quantities of the specification

These definitions follow the wording of the specification (single frame, frame offsets zero);
they are compared with the embedding of the source in the theorems. -/

/-- The fold of the specification: `j mod nloc` if `j > nloc`, and `j` otherwise. -/
def fold (nloc j : Int) : Int := if j > nloc then j % nloc else j

/-- The descriptor gradient entry `g[i,a]`. -/
def g_at (inp : Inputs R) (dm : Dims) (i a : Int) : R :=
  inp.net_deriv.flat (i * dm.ndescrpt + a)

/-- The Jacobian entry `J[i,a,b,d]`, at offset `i*ndescrpt*12 + a*12 + 3*b + d`. -/
def J_at (inp : Inputs R) (dm : Dims) (i a b d : Int) : R :=
  inp.in_deriv.flat (i * dm.ndescrpt * 12 + a * 12 + 3 * b + d)

/-- The neighbor list entry `nlist[i,jj]`. -/
def nlist_at (inp : Inputs R) (dm : Dims) (i jj : Int) : Int :=
  inp.nlist.flat (i * dm.nnei + jj)

/-- The resolved `axis_0` of atom `i` in a single-frame call. -/
def axis_0_of (op : ProdForceOp) (inp : Inputs R) (dm : Dims) (i : Int) : Int :=
  (set_axes op inp.axis.flat (frame_iters dm 0) i).1

/-- The resolved `axis_1` of atom `i` in a single-frame call. -/
def axis_1_of (op : ProdForceOp) (inp : Inputs R) (dm : Dims) (i : Int) : Int :=
  (set_axes op inp.axis.flat (frame_iters dm 0) i).2

/-- The Jacobian block `B(i,jj)` of the specification. -/
def slot_B (op : ProdForceOp) (inp : Inputs R) (dm : Dims) (i jj : Int) : Int :=
  if jj = axis_0_of op inp dm i then 1
  else if jj = axis_1_of op inp dm i then 2
  else 3

/-- The generic range of slot `jj` in the specification: `[4*jj, 4*jj+4)` if `jj < n_a_sel`,
and the single component `4*n_a_sel + (jj - n_a_sel)` otherwise. -/
def generic_range (op : ProdForceOp) (jj : Int) : Finset Int :=
  if jj < op.n_a_sel then Finset.Ico (4 * jj) (4 * jj + 4)
  else {4 * op.n_a_sel + (jj - op.n_a_sel)}

/-- The descriptor component range `R(i,jj)` of the specification. -/
def slot_R (op : ProdForceOp) (inp : Inputs R) (dm : Dims) (i jj : Int) : Finset Int :=
  if jj = axis_0_of op inp dm i then Finset.Ico 0 dm.ndescrpt
  else if jj = axis_1_of op inp dm i then Finset.Ico 0 dm.ndescrpt
  else generic_range op jj

/-- The single-frame reference equation of the specification for `force[t,d]`. -/
def reference_force (op : ProdForceOp) (inp : Inputs R) (dm : Dims) (t d : Int) : R :=
  -(∑ a ∈ Finset.Ico 0 dm.ndescrpt, g_at inp dm t a * J_at inp dm t a 0 d)
    - ∑ i ∈ Finset.Ico 0 dm.nloc, ∑ jj ∈ Finset.Ico 0 dm.nnei,
        if 0 ≤ nlist_at inp dm i jj ∧ fold dm.nloc (nlist_at inp dm i jj) = t then
          ∑ a ∈ slot_R op inp dm i jj,
            g_at inp dm i a * J_at inp dm i a (slot_B op inp dm i jj) d
        else 0

/-! ## Concrete inputs -/

/-- The scenario of the specification: `nloc = 2`, `nall = 3`, `n_a_sel = 1`, `n_r_sel = 0`,
`ndescrpt = 4`; the only slot of atom 0 holds atom 1 and is its `axis_0`, the slot of atom 1
is absent, the descriptor gradient is 1 everywhere and the Jacobian is `jac`. -/
def scenario_inputs (jac : Int → R) : Inputs R :=
  ⟨⟨[1, 8], fun _ => 1⟩, ⟨[1, 96], jac⟩, ⟨[1, 2], fun k => if k = 0 then 1 else -1⟩,
    ⟨[1, 8], fun _ => 0⟩, ⟨[3], fun k => if k = 0 then 2 else 3⟩⟩

/-- The kernel of the scenario. -/
def scenario_op : ProdForceOp := ProdForceOp.construct 1 0 1

/-- The sizes of the scenario. -/
def scenario_dims : Dims := ⟨1, 2, 3, 4, 1⟩

/-- The output of the scenario for Jacobian `jac` and initial buffer contents `init`. -/
def scenario_output (jac init : Int → R) : Output R :=
  ⟨[1, 9], (kernel scenario_op (scenario_inputs jac) scenario_dims ⟨init, []⟩).force⟩

/-- The scenario with every neighbor slot absent. -/
def isolated_inputs (jac : Int → R) : Inputs R :=
  ⟨⟨[1, 8], fun _ => 1⟩, ⟨[1, 96], jac⟩, ⟨[1, 2], fun _ => -1⟩,
    ⟨[1, 8], fun _ => 0⟩, ⟨[3], fun k => if k = 0 then 2 else 3⟩⟩

/-- The output on `isolated_inputs`. -/
def isolated_output (jac init : Int → R) : Output R :=
  ⟨[1, 9], (kernel scenario_op (isolated_inputs jac) scenario_dims ⟨init, []⟩).force⟩

/-- The single-frame input made of row `k` of each per-frame tensor (all of rank 2), the
atom counts being kept. -/
def frame_row (inp : Inputs R) (k : Int) : Inputs R :=
  ⟨⟨[1, inp.net_deriv.shape.getD 1 0],
      fun i => inp.net_deriv.flat (k * inp.net_deriv.dim_size 1 + i)⟩,
    ⟨[1, inp.in_deriv.shape.getD 1 0],
      fun i => inp.in_deriv.flat (k * inp.in_deriv.dim_size 1 + i)⟩,
    ⟨[1, inp.nlist.shape.getD 1 0], fun i => inp.nlist.flat (k * inp.nlist.dim_size 1 + i)⟩,
    ⟨[1, inp.axis.shape.getD 1 0], fun i => inp.axis.flat (k * inp.axis.dim_size 1 + i)⟩,
    inp.natoms⟩

/-- The flat indices written while frame `kk` is processed. -/
def frame_writes (op : ProdForceOp) (inp : Inputs R) (dm : Dims) (kk : Int) : List Int :=
  (frame op inp dm kk ⟨fun _ => 0, []⟩).written

/-- Two frames of one local atom and one ghost atom (`nloc = 1`, `nall = 2`), no neighbor
slot (`n_a_sel = n_r_sel = 0`), `ndescrpt = 1`, unit gradients, Jacobian `J(k) = k + 1`. -/
def two_frame_inputs : Inputs Int :=
  ⟨⟨[2, 1], fun _ => 1⟩, ⟨[2, 12], fun k => k + 1⟩, ⟨[2, 0], fun _ => -1⟩,
    ⟨[2, 4], fun _ => 0⟩, ⟨[3], fun k => if k = 1 then 2 else 1⟩⟩

/-- The output on `two_frame_inputs` for initial buffer contents `init`. -/
def two_frame_output (init : Int → Int) : Output Int :=
  ⟨[2, 6], (kernel (ProdForceOp.construct 0 0 1) two_frame_inputs ⟨2, 1, 2, 1, 0⟩
    ⟨init, []⟩).force⟩

/-- The output on row 1 of `two_frame_inputs` taken as a single-frame call. -/
def row_one_output (init : Int → Int) : Output Int :=
  ⟨[1, 6], (kernel (ProdForceOp.construct 0 0 1) (frame_row two_frame_inputs 1)
    ⟨1, 1, 2, 1, 0⟩ ⟨init, []⟩).force⟩

/-- One frame of one local atom and one ghost atom, no neighbor slot. -/
def ghost_inputs : Inputs Int :=
  ⟨⟨[1, 1], fun _ => 1⟩, ⟨[1, 12], fun k => k + 1⟩, ⟨[1, 0], fun _ => -1⟩,
    ⟨[1, 4], fun _ => 0⟩, ⟨[3], fun k => if k = 1 then 2 else 1⟩⟩

/-- The output on `ghost_inputs` for initial buffer contents `init`. -/
def ghost_output (init : Int → Int) : Output Int :=
  ⟨[1, 6], (kernel (ProdForceOp.construct 0 0 1) ghost_inputs ⟨1, 1, 2, 1, 0⟩
    ⟨init, []⟩).force⟩

/-- Two frames of one local atom and one ghost atom (`nloc = 1`, `nall = 2`) with one neighbor
slot (`n_a_sel = 1`, `n_r_sel = 0`, `ndescrpt = 4`): the slot of frame 0 holds the ghost atom
`1 = nloc`, the slot of frame 1 holds atom 0. -/
def boundary_inputs : Inputs Int :=
  ⟨⟨[2, 4], fun _ => 1⟩, ⟨[2, 48], fun k => k + 1⟩, ⟨[2, 1], fun k => if k = 0 then 1 else 0⟩,
    ⟨[2, 4], fun _ => 0⟩, ⟨[3], fun k => if k = 1 then 2 else 1⟩⟩

/-- The sizes of `boundary_inputs`. -/
def boundary_dims : Dims := ⟨2, 1, 2, 4, 1⟩


/-! ## Variations of an input, and further concrete inputs -/

/-- The input `inp` with the contents of the descriptor gradient replaced by `g`. -/
def with_gradient (inp : Inputs R) (g : Int → R) : Inputs R :=
  ⟨⟨inp.net_deriv.shape, g⟩, inp.in_deriv, inp.nlist, inp.axis, inp.natoms⟩

/-- The input `inp` with the contents of the Jacobian replaced by `jac`. -/
def with_jacobian (inp : Inputs R) (jac : Int → R) : Inputs R :=
  ⟨inp.net_deriv, ⟨inp.in_deriv.shape, jac⟩, inp.nlist, inp.axis, inp.natoms⟩

/-- One frame of one atom (`nloc = nall = 1`) with `n_a_sel = 1`, `n_r_sel = 0`, a descriptor
gradient of width 1 (so `ndescrpt = 1`) and a Jacobian of width 12; the only neighbor slot
holds atom 0 and the axis record is `(0, 5, 0, 5)`, so that slot 0 is no axis slot. -/
def narrow_descriptor_inputs : Inputs Int :=
  ⟨⟨[1, 1], fun _ => 1⟩, ⟨[1, 12], fun k => k + 1⟩, ⟨[1, 1], fun _ => 0⟩,
    ⟨[1, 4], fun k => if k = 1 ∨ k = 3 then 5 else 0⟩, ⟨[3], fun _ => 1⟩⟩

/-- The sizes of `narrow_descriptor_inputs`. -/
def narrow_descriptor_dims : Dims := ⟨1, 1, 1, 1, 1⟩

/-- One frame of one atom and no ghost atom (`nloc = nall = 1`) with `n_a_sel = 1`,
`n_r_sel = 0`, `ndescrpt = 4`; the only neighbor slot holds the index `1 = nloc`. -/
def no_ghost_inputs : Inputs Int :=
  ⟨⟨[1, 4], fun _ => 1⟩, ⟨[1, 48], fun k => k + 1⟩, ⟨[1, 1], fun _ => 1⟩,
    ⟨[1, 4], fun _ => 0⟩, ⟨[3], fun _ => 1⟩⟩

/-- The sizes of `no_ghost_inputs`. -/
def no_ghost_dims : Dims := ⟨1, 1, 1, 4, 1⟩

/-- The scenario of the specification with one more column in the descriptor gradient
(width 9) and in the neighbor list (width 3): neither width is a multiple of `nloc = 2`. -/
def ragged_inputs : Inputs Int :=
  ⟨⟨[1, 9], fun _ => 1⟩, ⟨[1, 96], fun k => k⟩, ⟨[1, 3], fun k => if k = 0 then 1 else -1⟩,
    ⟨[1, 8], fun _ => 0⟩, ⟨[3], fun k => if k = 0 then 2 else 3⟩⟩

/-! ## Frame workers sharing the iterators

The five iterators are declared on lines 99-103, before the parallel loop of line 105, which
carries no data-sharing clause: they are one set of variables shared by the workers.  A worker
first assigns them for its frame (lines 107-111) and then runs the body (lines 113-168), which
reads them again at every access. -/

/-- Lines 113-168 with the iterators as they are found. -/
def frame_body (op : ProdForceOp) (inp : Inputs R) (dm : Dims) (it : Iters)
    (force : ForceBuf R) : ForceBuf R :=
  let force := zero_local dm it force
  forLoop 0 dm.nloc (fun ii force => atom_term op inp dm it ii force) force

/-- The state shared by the workers: the iterators and the force buffer. -/
structure SharedState (R : Type) where
  iters : Iters
  force : ForceBuf R

/-- The two steps of a worker, each taken as one event. -/
inductive WorkerEvent where
  | assign_iters (kk : Int)
  | run_body

/-- One event on the shared state. -/
def worker_step (op : ProdForceOp) (inp : Inputs R) (dm : Dims) (s : SharedState R) :
    WorkerEvent → SharedState R
  | WorkerEvent.assign_iters kk => ⟨frame_iters dm kk, s.force⟩
  | WorkerEvent.run_body => ⟨s.iters, frame_body op inp dm s.iters s.force⟩

/-- A sequence of events from the state of lines 99-103 (all iterators 0) and the allocated
buffer. -/
def run_events (op : ProdForceOp) (inp : Inputs R) (dm : Dims) (init : Int → R)
    (evs : List WorkerEvent) : SharedState R :=
  evs.foldl (worker_step op inp dm) ⟨⟨0, 0, 0, 0, 0⟩, ⟨init, []⟩⟩

/-- The sizes of `two_frame_inputs`. -/
def two_frame_dims : Dims := ⟨2, 1, 2, 1, 0⟩

/-- One frame of one local atom and two ghost atoms (`nloc = 1`, `nall = 3`) with
`n_a_sel = 1`, `n_r_sel = 0`, `ndescrpt = 4`; the only neighbor slot holds the first ghost
atom `1 = nloc`. -/
def far_ghost_inputs : Inputs Int :=
  ⟨⟨[1, 4], fun _ => 1⟩, ⟨[1, 48], fun k => k + 1⟩, ⟨[1, 1], fun _ => 1⟩,
    ⟨[1, 4], fun _ => 0⟩, ⟨[3], fun k => if k = 1 then 3 else 1⟩⟩

/-- The sizes of `far_ghost_inputs`. -/
def far_ghost_dims : Dims := ⟨1, 1, 3, 4, 1⟩

/-- The output on `far_ghost_inputs` from a buffer initially 7 everywhere. -/
def far_ghost_output : Output Int :=
  ⟨[1, 9], (kernel (ProdForceOp.construct 1 0 1) far_ghost_inputs far_ghost_dims
    ⟨fun _ => 7, []⟩).force⟩

/-- The Jacobian `J(k) = k` with the entries of block 2 of atom 0 of the scenario
(`k = a*12 + 6 + d`, `a` in `[0, 4)`, `d` in `{0,1,2}`) replaced by 1000. -/
def perturbed_jacobian (k : Int) : Int :=
  if 0 ≤ k ∧ k < 48 ∧ 6 ≤ k % 12 ∧ k % 12 < 9 then 1000 else k

/-- The output of the scenario (Jacobian `J(k) = k`) with descriptor gradient `g` and initial
buffer contents `init`. -/
def gradient_output (g init : Int → Int) : Output Int :=
  ⟨[1, 9], (kernel scenario_op (with_gradient (scenario_inputs (fun k => k)) g) scenario_dims
    ⟨init, []⟩).force⟩

/-! ## Inputs for the size conversions and the selection counts -/

/-- A call on tensors without elements: descriptor gradient of shape `[4294967297, 0]`,
Jacobian and neighbor list of shape `[1, 0]`, axis descriptor of shape `[1, 4]`, atom counts
`(1, 1, 1)`, `n_a_sel = n_r_sel = 0`. -/
def wide_leading_inputs : Inputs Int :=
  ⟨⟨[4294967297, 0], fun _ => 0⟩, ⟨[1, 0], fun _ => 0⟩, ⟨[1, 0], fun _ => -1⟩,
    ⟨[1, 4], fun _ => 0⟩, ⟨[3], fun _ => 1⟩⟩

/-- The sizes derived on `wide_leading_inputs`. -/
def wide_leading_dims : Dims := ⟨1, 1, 1, 0, 0⟩

/-- The output on `wide_leading_inputs` for initial buffer contents `init`. -/
def wide_leading_output (init : Int → Int) : Output Int :=
  ⟨[1, 3], (kernel (ProdForceOp.construct 0 0 1) wide_leading_inputs wide_leading_dims
    ⟨init, []⟩).force⟩

/-- A call without frames: descriptor gradient of shape `[0, 4294967300]`, Jacobian of shape
`[0, 48]`, neighbor list of shape `[0, 0]`, axis descriptor of shape `[0, 4]`, atom counts
`(1, 1, 1)`, `n_a_sel = n_r_sel = 0`. -/
def wide_gradient_inputs : Inputs Int :=
  ⟨⟨[0, 4294967300], fun _ => 0⟩, ⟨[0, 48], fun _ => 0⟩, ⟨[0, 0], fun _ => -1⟩,
    ⟨[0, 4], fun _ => 0⟩, ⟨[3], fun _ => 1⟩⟩

/-- The sizes derived on `wide_gradient_inputs`. -/
def wide_gradient_dims : Dims := ⟨0, 1, 1, 4, 0⟩

/-- A fully in-range single frame with a negative count of radial neighbors: `nloc = nall = 2`,
`n_a_sel = 3`, `n_r_sel = -1` (so `nnei = 2`, `ndescrpt = 11`); the two slots of atom 0 hold
atom 1 and those of atom 1 hold atom 0; every axis record is `(0, 0, 0, 1)`, so `axis_0 = 0`
and `axis_1 = 1`; the descriptor gradient is 1 at component 8 of atom 0 and 0 elsewhere, and
the Jacobian is 1 everywhere. -/
def negative_sel_inputs : Inputs Int :=
  ⟨⟨[1, 22], fun k => if k = 8 then 1 else 0⟩, ⟨[1, 264], fun _ => 1⟩,
    ⟨[1, 4], fun k => if k < 2 then 1 else 0⟩,
    ⟨[1, 8], fun k => if k = 3 ∨ k = 7 then 1 else 0⟩, ⟨[3], fun _ => 2⟩⟩

/-- The sizes of `negative_sel_inputs`. -/
def negative_sel_dims : Dims := ⟨1, 2, 2, 11, 2⟩

/-- The output on `negative_sel_inputs` from an all-zero buffer. -/
def negative_sel_output : Output Int :=
  ⟨[1, 6], (kernel (ProdForceOp.construct 3 (-1) 1) negative_sel_inputs negative_sel_dims
    ⟨fun _ => 0, []⟩).force⟩

/-- A fully in-range single frame with a generic slot: `nloc = nall = 2`, `n_a_sel = 2`,
`n_r_sel = 1` (so `nnei = 3`, `ndescrpt = 9`); the three slots of atom 0 hold atom 1 and those
of atom 1 hold atom 0; every axis record is `(0, 0, 1, 0)`, so `axis_0 = 0` and `axis_1 = 2`,
and slot 1 is a generic slot with components `[4, 8)`. -/
def generic_slot_inputs : Inputs Int :=
  ⟨⟨[1, 18], fun k => k + 1⟩, ⟨[1, 216], fun k => k * k⟩,
    ⟨[1, 6], fun k => if k < 3 then 1 else 0⟩,
    ⟨[1, 8], fun k => if k = 2 ∨ k = 6 then 1 else 0⟩, ⟨[3], fun _ => 2⟩⟩

/-- The sizes of `generic_slot_inputs`. -/
def generic_slot_dims : Dims := ⟨1, 2, 2, 9, 3⟩

/-- The output on `generic_slot_inputs` from an all-zero buffer. -/
def generic_slot_output : Output Int :=
  ⟨[1, 6], (kernel (ProdForceOp.construct 2 1 1) generic_slot_inputs generic_slot_dims
    ⟨fun _ => 0, []⟩).force⟩

/-! ## Loop lemmas -/

theorem sum_Ico_head (lo hi : Int) (h : lo < hi) (f : Int → R) :
    ∑ k ∈ Finset.Ico lo hi, f k = f lo + ∑ k ∈ Finset.Ico (lo + 1) hi, f k := by
  have e : Finset.Ico lo hi = insert lo (Finset.Ico (lo + 1) hi) := by
    ext x
    simp only [Finset.mem_Ico, Finset.mem_insert]
    omega
  rw [e, Finset.sum_insert]
  simp

theorem forLoopAux_subtracts (body : Int → ForceBuf R → ForceBuf R) (δ : Int → Int → R)
    (hb : ∀ k, Subtracts (body k) (δ k)) (n : Nat) :
    ∀ lo : Int, Subtracts (forLoopAux body n lo)
      (fun p => ∑ k ∈ Finset.Ico lo (lo + n), δ k p) := by
  induction n with
  | zero =>
    intro lo m p
    simp [forLoopAux]
  | succ n ih =>
    intro lo m p
    have h1 := ih (lo + 1) (body lo m) p
    have h2 := hb lo m p
    simp only [forLoopAux]
    rw [h1, h2, sum_Ico_head lo (lo + ((n + 1 : Nat) : Int)) (by push_cast; omega)]
    have e : lo + 1 + (n : Int) = lo + ((n + 1 : Nat) : Int) := by push_cast; ring
    rw [e]
    ring

theorem forLoop_subtracts (body : Int → ForceBuf R → ForceBuf R) (δ : Int → Int → R)
    (hb : ∀ k, Subtracts (body k) (δ k)) (lo hi : Int) :
    Subtracts (forLoop lo hi body) (fun p => ∑ k ∈ Finset.Ico lo hi, δ k p) := by
  intro m p
  have h := forLoopAux_subtracts body δ hb (hi - lo).toNat lo m p
  unfold forLoop
  rw [h]
  congr 1
  rcases le_or_lt hi lo with hle | hlt
  · have e : (hi - lo).toNat = 0 := by omega
    rw [e]
    simp [Finset.Ico_eq_empty_of_le hle]
  · have e : lo + ((hi - lo).toNat : Int) = hi := by omega
    rw [e]

theorem subAssign_force (m : ForceBuf R) (idx : Int) (v : R) (p : Int) :
    (m.subAssign idx v).force p = m.force p - (if p = idx then v else 0) := by
  unfold ForceBuf.subAssign
  by_cases h : p = idx
  · subst h; simp
  · simp [Function.update_noteq h, h]

theorem accum3_subtracts (net_deriv in_deriv : Int → R) (fo ni jo : Int) :
    Subtracts (accum3 net_deriv in_deriv fo ni jo) (accum3_delta net_deriv in_deriv fo ni jo) := by
  intro m p
  simp only [accum3, accum3_delta, subAssign_force]
  ring

theorem comp_subtracts {F G : ForceBuf R → ForceBuf R} {δ₁ δ₂ : Int → R}
    (hF : Subtracts F δ₁) (hG : Subtracts G δ₂) :
    Subtracts (fun m => G (F m)) (fun p => δ₁ p + δ₂ p) := by
  intro m p
  rw [hG, hF]
  ring

theorem center_term_subtracts (inp : Inputs R) (dm : Dims) (it : Iters) (i_idx : Int) :
    Subtracts (center_term inp dm it i_idx) (center_delta inp dm it i_idx) := by
  unfold center_term center_delta
  exact forLoop_subtracts _ _ (fun aa => accum3_subtracts _ _ _ _ _) 0 dm.ndescrpt

theorem neighbor_term_subtracts (op : ProdForceOp) (inp : Inputs R) (dm : Dims) (it : Iters)
    (i_idx axis_0 axis_1 jj : Int) :
    Subtracts (neighbor_term op inp dm it i_idx axis_0 axis_1 jj)
      (neighbor_delta op inp dm it i_idx axis_0 axis_1 jj) := by
  intro m p
  unfold neighbor_term neighbor_delta used_range used_offset
  by_cases hneg : target_slot inp.nlist.flat dm it i_idx jj < 0
  · simp [hneg]
  · simp only [if_neg hneg]
    by_cases h0 : jj = axis_0
    · simp only [if_pos h0]
      exact forLoop_subtracts _ _ (fun aa => accum3_subtracts _ _ _ _ _) _ _ m p
    · simp only [if_neg h0]
      by_cases h1 : jj = axis_1
      · simp only [if_pos h1]
        exact forLoop_subtracts _ _ (fun aa => accum3_subtracts _ _ _ _ _) _ _ m p
      · simp only [if_neg h1]
        exact forLoop_subtracts _ _ (fun aa => accum3_subtracts _ _ _ _ _) _ _ m p

theorem atom_term_subtracts (op : ProdForceOp) (inp : Inputs R) (dm : Dims) (it : Iters)
    (ii : Int) :
    Subtracts (atom_term op inp dm it ii) (atom_delta op inp dm it ii) := by
  unfold atom_term atom_delta
  exact comp_subtracts (center_term_subtracts inp dm it ii)
    (forLoop_subtracts _ _ (fun jj => neighbor_term_subtracts op inp dm it ii _ _ jj) 0 dm.nnei)

theorem assign_force (m : ForceBuf R) (idx : Int) (v : R) (p : Int) :
    (m.assign idx v).force p = if p = idx then v else m.force p := by
  unfold ForceBuf.assign
  by_cases h : p = idx
  · subst h; simp
  · simp [Function.update_noteq h, h]

theorem zero_loop_force (fi : Int) (n : Nat) :
    ∀ (lo : Int) (m : ForceBuf R) (p : Int),
      (forLoopAux (fun ii force =>
        let i_idx := ii
        let force := ForceBuf.assign force (fi + i_idx * 3 + 0) (0 : R)
        let force := ForceBuf.assign force (fi + i_idx * 3 + 1) 0
        ForceBuf.assign force (fi + i_idx * 3 + 2) 0) n lo m).force p
      = if fi + lo * 3 ≤ p ∧ p < fi + (lo + n) * 3 then 0 else m.force p := by
  induction n with
  | zero =>
    intro lo m p
    have : ¬ (fi + lo * 3 ≤ p ∧ p < fi + (lo + ((0 : Nat) : Int)) * 3) := by
      push_cast; omega
    simp only [forLoopAux, this, if_false]
  | succ n ih =>
    intro lo m p
    simp only [forLoopAux]
    rw [ih (lo + 1)]
    simp only [assign_force]
    push_cast
    by_cases c1 : fi + (lo + 1) * 3 ≤ p ∧ p < fi + (lo + 1 + (n : Int)) * 3
    · have c2 : fi + lo * 3 ≤ p ∧ p < fi + (lo + ((n : Int) + 1)) * 3 := by omega
      simp only [c1, c2, and_self, if_true]
    · simp only [c1, if_false]
      by_cases c2 : fi + lo * 3 ≤ p ∧ p < fi + (lo + ((n : Int) + 1)) * 3
      · simp only [c2, and_self, if_true]
        have : p = fi + lo * 3 + 0 ∨ p = fi + lo * 3 + 1 ∨ p = fi + lo * 3 + 2 := by omega
        rcases this with h | h | h
        · split_ifs <;> rfl
        · split_ifs <;> rfl
        · rw [if_pos h]
      · simp only [c2, if_false]
        have h0 : ¬ p = fi + lo * 3 + 0 := by omega
        have h1 : ¬ p = fi + lo * 3 + 1 := by omega
        have h2 : ¬ p = fi + lo * 3 + 2 := by omega
        simp only [h0, h1, h2, if_false]

theorem zero_local_force (dm : Dims) (it : Iters) (m : ForceBuf R) (p : Int) :
    (zero_local dm it m).force p
      = if it.force_iter ≤ p ∧ p < it.force_iter + dm.nloc * 3 then 0 else m.force p := by
  unfold zero_local forLoop
  rw [zero_loop_force]
  by_cases c : it.force_iter ≤ p ∧ p < it.force_iter + dm.nloc * 3
  · have c2 : it.force_iter + 0 * 3 ≤ p ∧
        p < it.force_iter + (0 + (((dm.nloc - 0).toNat : Nat) : Int)) * 3 := by omega
    simp only [c, c2, and_self, if_true]
  · have c2 : ¬ (it.force_iter + 0 * 3 ≤ p ∧
        p < it.force_iter + (0 + (((dm.nloc - 0).toNat : Nat) : Int)) * 3) := by omega
    simp only [c, c2, if_false]

theorem frame_force (op : ProdForceOp) (inp : Inputs R) (dm : Dims) (kk : Int)
    (m : ForceBuf R) (p : Int) :
    (frame op inp dm kk m).force p
      = (if (frame_iters dm kk).force_iter ≤ p ∧
            p < (frame_iters dm kk).force_iter + dm.nloc * 3 then 0 else m.force p)
        - frame_delta op inp dm (frame_iters dm kk) p := by
  unfold frame frame_delta
  have h := forLoop_subtracts _ _
    (fun ii => atom_term_subtracts op inp dm (frame_iters dm kk) ii) 0 dm.nloc
    (zero_local dm (frame_iters dm kk) m) p
  simp only [] at h ⊢
  rw [h, zero_local_force]

theorem accum3_delta_local (net_deriv in_deriv : Int → R) (fi j t d ni jo : Int)
    (hd0 : 0 ≤ d) (hd3 : d < 3) :
    accum3_delta net_deriv in_deriv (fi + j * 3) ni jo (fi + t * 3 + d)
      = if j = t then net_deriv ni * in_deriv (jo + d) else 0 := by
  unfold accum3_delta
  have hd : d = 0 ∨ d = 1 ∨ d = 2 := by omega
  by_cases hjt : j = t
  · subst hjt
    rcases hd with h | h | h <;> subst h <;> simp
  · have h0 : ¬ (fi + t * 3 + d = fi + j * 3 + 0) := by omega
    have h1 : ¬ (fi + t * 3 + d = fi + j * 3 + 1) := by omega
    have h2 : ¬ (fi + t * 3 + d = fi + j * 3 + 2) := by omega
    rw [if_neg h0, if_neg h1, if_neg h2, if_neg hjt]
    simp

/-- The amount one neighbor slot subtracts from the entry `(t, d)` of a slot of the frame. -/
theorem neighbor_delta_local (op : ProdForceOp) (inp : Inputs R) (dm : Dims) (it : Iters)
    (i axis_0 axis_1 jj t d : Int) (hd0 : 0 ≤ d) (hd3 : d < 3) :
    neighbor_delta op inp dm it i axis_0 axis_1 jj (it.force_iter + t * 3 + d)
      = if 0 ≤ target_slot inp.nlist.flat dm it i jj
            ∧ target_slot inp.nlist.flat dm it i jj = t then
          ∑ aa ∈ used_range op dm axis_0 axis_1 jj,
            inp.net_deriv.flat (it.net_iter + i * dm.ndescrpt + aa)
              * inp.in_deriv.flat (it.in_iter + i * dm.ndescrpt * 12 + aa * 12
                  + used_offset axis_0 axis_1 jj + d)
        else 0 := by
  unfold neighbor_delta
  simp only [accum3_delta_local _ _ _ _ _ _ _ _ hd0 hd3]
  by_cases hneg : target_slot inp.nlist.flat dm it i jj < 0
  · have : ¬ (0 ≤ target_slot inp.nlist.flat dm it i jj
        ∧ target_slot inp.nlist.flat dm it i jj = t) := by omega
    simp only [if_pos hneg, if_neg this]
  · simp only [if_neg hneg]
    by_cases ht' : target_slot inp.nlist.flat dm it i jj = t
    · have : 0 ≤ target_slot inp.nlist.flat dm it i jj
        ∧ target_slot inp.nlist.flat dm it i jj = t := ⟨by omega, ht'⟩
      simp only [if_pos this, if_pos ht']
    · have : ¬ (0 ≤ target_slot inp.nlist.flat dm it i jj
        ∧ target_slot inp.nlist.flat dm it i jj = t) := fun h => ht' h.2
      simp only [if_neg this, if_neg ht', Finset.sum_const_zero]

/-- The total amount subtracted by a frame from the entry `(t, d)` of a local slot. -/
theorem frame_delta_local (op : ProdForceOp) (inp : Inputs R) (dm : Dims) (it : Iters)
    (t d : Int) (ht0 : 0 ≤ t) (ht : t < dm.nloc) (hd0 : 0 ≤ d) (hd3 : d < 3) :
    frame_delta op inp dm it (it.force_iter + t * 3 + d)
      = (∑ aa ∈ Finset.Ico 0 dm.ndescrpt,
          inp.net_deriv.flat (it.net_iter + t * dm.ndescrpt + aa)
            * inp.in_deriv.flat (it.in_iter + t * dm.ndescrpt * 12 + aa * 12 + d))
        + ∑ i ∈ Finset.Ico 0 dm.nloc, ∑ jj ∈ Finset.Ico 0 dm.nnei,
            if 0 ≤ target_slot inp.nlist.flat dm it i jj
                ∧ target_slot inp.nlist.flat dm it i jj = t then
              ∑ aa ∈ used_range op dm (set_axes op inp.axis.flat it i).1
                  (set_axes op inp.axis.flat it i).2 jj,
                inp.net_deriv.flat (it.net_iter + i * dm.ndescrpt + aa)
                  * inp.in_deriv.flat (it.in_iter + i * dm.ndescrpt * 12 + aa * 12
                      + used_offset (set_axes op inp.axis.flat it i).1
                          (set_axes op inp.axis.flat it i).2 jj + d)
            else 0 := by
  unfold frame_delta atom_delta
  rw [Finset.sum_add_distrib]
  congr 1
  · unfold center_delta
    simp only [accum3_delta_local _ _ _ _ _ _ _ _ hd0 hd3]
    rw [Finset.sum_comm]
    simp only [Finset.sum_ite_eq', Finset.mem_Ico, ht0, ht, and_self, if_true]
  · refine Finset.sum_congr rfl (fun i _ => Finset.sum_congr rfl (fun jj _ => ?_))
    exact neighbor_delta_local op inp dm it i _ _ jj t d hd0 hd3

/-- The conversion to `int` leaves the values that an `int` holds unchanged. -/
theorem to_int32_of_fits (x : Int) (h0 : -2147483648 ≤ x) (h1 : x < 2147483648) :
    to_int32 x = x := by
  unfold to_int32
  split_ifs <;> omega

/-- The conversion to `int` does not increase a non-negative value. -/
theorem to_int32_le (x : Int) (h : 0 ≤ x) : to_int32 x ≤ x := by
  unfold to_int32
  split_ifs <;> omega

theorem dim_size_nonneg {α : Type} (t : Tensor α) (k : Nat) : 0 ≤ t.dim_size k := by
  unfold Tensor.dim_size
  exact Int.ofNat_nonneg _

/-- The truncated quotient by a positive `nloc`. -/
theorem tdiv_bounds (w nloc : Int) (hw : 0 ≤ w) (hn : 1 ≤ nloc) :
    0 ≤ Int.tdiv w nloc ∧ nloc * Int.tdiv w nloc ≤ w ∧ w < nloc * Int.tdiv w nloc + nloc
      ∧ (w = nloc * Int.tdiv w nloc ↔ nloc ∣ w) := by
  rw [Int.tdiv_eq_ediv hw (by omega)]
  have h1 : w / nloc * nloc ≤ w := Int.ediv_mul_le w (by omega)
  have h2 : w < (w / nloc + 1) * nloc := Int.lt_ediv_add_one_mul_self w (by omega)
  have h3 : 0 ≤ w / nloc := Int.ediv_nonneg hw (by omega)
  refine ⟨h3, by linarith, by linarith, ?_⟩
  constructor
  · intro h
    exact Dvd.intro _ h.symm
  · intro h
    exact (Int.mul_ediv_cancel' h).symm

theorem req_bind_eq_ok {α : Type} (c : Prop) [Decidable c] (e : Status)
    (k : Unit → Except Status α) (x : α) :
    (OP_REQUIRES c e >>= k) = Except.ok x ↔ c ∧ k () = Except.ok x := by
  unfold OP_REQUIRES
  by_cases h : c
  · simp [h, bind, Except.bind]
  · simp [h, bind, Except.bind]

theorem idiv_bind_eq_ok {α : Type} (a b : Int) (k : Int → Except Status α) (x : α) :
    (idiv a b >>= k) = Except.ok x ↔ b ≠ 0 ∧ k (Int.tdiv a b) = Except.ok x := by
  unfold idiv
  by_cases h : b = 0
  · simp [h, bind, Except.bind]
  · simp [h, bind, Except.bind]

theorem resolve_eq_ok_iff (op : ProdForceOp) (inp : Inputs R) (dm : Dims) :
    resolve op inp = Except.ok dm ↔ ShapesOk op inp ∧ dm = derived_dims inp := by
  unfold resolve ShapesOk derived_dims
  simp only [req_bind_eq_ok, idiv_bind_eq_ok, pure, Except.pure, Except.ok.injEq, and_assoc]
  constructor
  · rintro ⟨h1, h2, h3, h4, h5, h6, h7, -, h8, h9, h10, h11, h12, h13, h14⟩
    exact ⟨h1, h2, h3, h4, h5, h6, h7, h8, h9, h10, h11, h12, h13, h14.symm⟩
  · rintro ⟨h1, h2, h3, h4, h5, h6, h7, h8, h9, h10, h11, h12, h13, h14⟩
    exact ⟨h1, h2, h3, h4, h5, h6, h7, h7, h8, h9, h10, h11, h12, h13, h14.symm⟩

theorem Compute_eq_ok_iff (op : ProdForceOp) (inp : Inputs R) (init : Int → R) (out : Output R) :
    Compute op inp init = Except.ok out ↔
      ∃ dm, resolve op inp = Except.ok dm ∧
        out = ⟨[dm.nframes, 3 * dm.nall], (kernel op inp dm ⟨init, []⟩).force⟩ := by
  unfold Compute
  cases h : resolve op inp with
  | error e => simp [bind, Except.bind]
  | ok dm =>
    simp only [bind, Except.bind, pure, Except.pure, Except.ok.injEq]
    constructor
    · intro h'
      exact ⟨dm, rfl, h'.symm⟩
    · rintro ⟨dm', rfl, rfl⟩
      rfl

theorem kernel_single_frame (op : ProdForceOp) (inp : Inputs R) (dm : Dims)
    (h1 : dm.nframes = 1) (m : ForceBuf R) :
    kernel op inp dm m = frame op inp dm 0 m := by
  unfold kernel forLoop
  rw [h1]
  rfl

theorem Ico_succ_singleton_int (x : Int) : Finset.Ico x (x + 1) = {x} := by
  ext y
  simp only [Finset.mem_Ico, Finset.mem_singleton]
  omega

theorem target_slot_eq_fold (inp : Inputs R) (dm : Dims) (i jj : Int) (hn : 0 ≤ dm.nloc) :
    target_slot inp.nlist.flat dm (frame_iters dm 0) i jj
      = fold dm.nloc (nlist_at inp dm i jj) := by
  unfold target_slot fold nlist_at frame_iters
  simp only [zero_mul, zero_add]
  by_cases h : inp.nlist.flat (i * dm.nnei + jj) > dm.nloc
  · simp only [if_pos h]
    exact Int.tmod_eq_emod (by omega) hn
  · simp only [if_neg h]

theorem fold_nonneg_iff (nloc j : Int) (hn : 1 ≤ nloc) : 0 ≤ fold nloc j ↔ 0 ≤ j := by
  unfold fold
  by_cases h : j > nloc
  · simp only [if_pos h]
    have := Int.emod_nonneg j (show nloc ≠ 0 by omega)
    constructor <;> intro _ <;> omega
  · simp only [if_neg h]

theorem used_offset_eq (op : ProdForceOp) (inp : Inputs R) (dm : Dims) (i jj : Int) :
    used_offset (set_axes op inp.axis.flat (frame_iters dm 0) i).1
        (set_axes op inp.axis.flat (frame_iters dm 0) i).2 jj
      = 3 * slot_B op inp dm i jj := by
  unfold used_offset slot_B axis_0_of axis_1_of
  split_ifs <;> rfl

theorem used_range_eq (op : ProdForceOp) (hs : op.n_a_shift = op.n_a_sel * 4)
    (inp : Inputs R) (dm : Dims) (i jj : Int) :
    used_range op dm (set_axes op inp.axis.flat (frame_iters dm 0) i).1
        (set_axes op inp.axis.flat (frame_iters dm 0) i).2 jj
      = slot_R op inp dm i jj := by
  unfold used_range slot_R generic_range axis_0_of axis_1_of make_descript_range
  by_cases h0 : jj = (set_axes op inp.axis.flat (frame_iters dm 0) i).1
  · simp only [if_pos h0]
  · simp only [if_neg h0]
    by_cases h1 : jj = (set_axes op inp.axis.flat (frame_iters dm 0) i).2
    · simp only [if_pos h1]
    · simp only [if_neg h1]
      by_cases h2 : jj < op.n_a_sel
      · simp only [if_pos h2]
        rw [mul_comm jj 4]
      · simp only [if_neg h2]
        rw [hs, Ico_succ_singleton_int, mul_comm op.n_a_sel 4]

/-- The entries of the local slots after a single frame, in closed form. -/
theorem single_frame_force (op : ProdForceOp) (hs : op.n_a_shift = op.n_a_sel * 4)
    (inp : Inputs R) (dm : Dims) (m : ForceBuf R)
    (t d : Int) (ht0 : 0 ≤ t) (ht : t < dm.nloc) (hd0 : 0 ≤ d) (hd3 : d < 3) :
    (frame op inp dm 0 m).force (3 * t + d) = reference_force op inp dm t d := by
  have hp : 3 * t + d = (frame_iters dm 0).force_iter + t * 3 + d := by
    simp only [frame_iters, zero_mul, zero_add]
    ring
  have hcond : (frame_iters dm 0).force_iter ≤ (frame_iters dm 0).force_iter + t * 3 + d ∧
      (frame_iters dm 0).force_iter + t * 3 + d
        < (frame_iters dm 0).force_iter + dm.nloc * 3 := by
    constructor <;> omega
  rw [hp, frame_force, if_pos hcond, frame_delta_local op inp dm _ t d ht0 ht hd0 hd3]
  unfold reference_force
  rw [zero_sub, neg_add, sub_eq_add_neg]
  congr 2
  · refine Finset.sum_congr rfl (fun a _ => ?_)
    unfold g_at J_at
    simp only [frame_iters, zero_mul, zero_add, mul_zero, add_zero]
  · refine Finset.sum_congr rfl (fun i _ => Finset.sum_congr rfl (fun jj _ => ?_))
    rw [target_slot_eq_fold inp dm i jj (by omega), used_range_eq op hs, used_offset_eq]
    have hiff := fold_nonneg_iff dm.nloc (nlist_at inp dm i jj) (by omega)
    by_cases hc : 0 ≤ nlist_at inp dm i jj ∧ fold dm.nloc (nlist_at inp dm i jj) = t
    · have hc' : 0 ≤ fold dm.nloc (nlist_at inp dm i jj)
          ∧ fold dm.nloc (nlist_at inp dm i jj) = t := ⟨hiff.2 hc.1, hc.2⟩
      rw [if_pos hc, if_pos hc']
      refine Finset.sum_congr rfl (fun a _ => ?_)
      unfold g_at J_at
      simp only [frame_iters, zero_mul, zero_add]
    · have hc' : ¬ (0 ≤ fold dm.nloc (nlist_at inp dm i jj)
          ∧ fold dm.nloc (nlist_at inp dm i jj) = t) := fun h => hc ⟨hiff.1 h.1, h.2⟩
      rw [if_neg hc, if_neg hc']

/-- The entries of the local slots returned by an accepted single-frame call. -/
theorem accepted_single_frame_force (op : ProdForceOp) (hs : op.n_a_shift = op.n_a_sel * 4)
    (inp : Inputs R) (init : Int → R) (dm : Dims) (out : Output R)
    (hres : resolve op inp = Except.ok dm) (hacc : Compute op inp init = Except.ok out)
    (hframes : dm.nframes = 1)
    (t d : Int) (ht0 : 0 ≤ t) (ht : t < dm.nloc) (hd0 : 0 ≤ d) (hd3 : d < 3) :
    out.flat (3 * t + d) = reference_force op inp dm t d := by
  obtain ⟨dm', hres', rfl⟩ := (Compute_eq_ok_iff _ inp init out).1 hacc
  have hdm : dm' = dm := by
    rw [hres] at hres'
    exact (Except.ok.inj hres').symm
  subst hdm
  show (kernel _ inp dm' ⟨init, []⟩).force (3 * t + d) = _
  rw [kernel_single_frame _ inp dm' hframes]
  exact single_frame_force _ hs inp dm' _ t d ht0 ht hd0 hd3
/-! ## Descriptor ranges -/

theorem mdr_fst (op : ProdForceOp) (hs : op.n_a_shift = op.n_a_sel * 4) (jj : Int) :
    (make_descript_range op jj).1
      = if jj < op.n_a_sel then 4 * jj else 4 * op.n_a_sel + (jj - op.n_a_sel) := by
  unfold make_descript_range
  split_ifs <;> simp only [hs] <;> ring

theorem mdr_snd (op : ProdForceOp) (hs : op.n_a_shift = op.n_a_sel * 4) (jj : Int) :
    (make_descript_range op jj).2
      = if jj < op.n_a_sel then 4 * jj + 4 else 4 * op.n_a_sel + (jj - op.n_a_sel) + 1 := by
  unfold make_descript_range
  split_ifs <;> simp only [hs] <;> ring

theorem mdr_mem_iff (op : ProdForceOp) (hs : op.n_a_shift = op.n_a_sel * 4) (jj a : Int) :
    a ∈ Finset.Ico (make_descript_range op jj).1 (make_descript_range op jj).2
      ↔ (jj < op.n_a_sel ∧ 4 * jj ≤ a ∧ a < 4 * jj + 4)
          ∨ (op.n_a_sel ≤ jj ∧ a = 4 * op.n_a_sel + (jj - op.n_a_sel)) := by
  rw [Finset.mem_Ico, mdr_fst op hs, mdr_snd op hs]
  split_ifs <;> omega

theorem mdr_disjoint (op : ProdForceOp) (hs : op.n_a_shift = op.n_a_sel * 4)
    (jj jj' : Int) (hne : jj ≠ jj') :
    Disjoint (Finset.Ico (make_descript_range op jj).1 (make_descript_range op jj).2)
      (Finset.Ico (make_descript_range op jj').1 (make_descript_range op jj').2) := by
  rw [Finset.disjoint_left]
  intro a h1 h2
  rw [mdr_mem_iff op hs] at h1 h2
  omega

theorem mdr_biUnion (op : ProdForceOp) (hs : op.n_a_shift = op.n_a_sel * 4)
    (ha : 0 ≤ op.n_a_sel) (hr : 0 ≤ op.n_r_sel) :
    (Finset.Ico 0 (op.n_a_sel + op.n_r_sel)).biUnion
        (fun jj => Finset.Ico (make_descript_range op jj).1 (make_descript_range op jj).2)
      = Finset.Ico 0 (4 * op.n_a_sel + op.n_r_sel) := by
  ext a
  simp only [Finset.mem_biUnion, mdr_mem_iff op hs]
  simp only [Finset.mem_Ico]
  constructor
  · rintro ⟨jj, hjj, h⟩
    omega
  · intro h
    by_cases hlt : a < 4 * op.n_a_sel
    · exact ⟨a / 4, by omega, by omega⟩
    · exact ⟨op.n_a_sel + (a - 4 * op.n_a_sel), by omega, by omega⟩

/-! ## Failure of the validation -/

theorem req_bind_eq_error {α : Type} (c : Prop) [Decidable c] (e : Status)
    (k : Unit → Except Status α) (s : Status) :
    (OP_REQUIRES c e >>= k) = Except.error s ↔ (¬ c ∧ s = e) ∨ (c ∧ k () = Except.error s) := by
  unfold OP_REQUIRES
  by_cases h : c
  · simp [h, bind, Except.bind]
  · simp [h, bind, Except.bind, eq_comm]

theorem idiv_bind_eq_error {α : Type} (a b : Int) (k : Int → Except Status α) (s : Status) :
    (idiv a b >>= k) = Except.error s
      ↔ (b = 0 ∧ s = Status.DivisionByZero) ∨ (b ≠ 0 ∧ k (Int.tdiv a b) = Except.error s) := by
  unfold idiv
  by_cases h : b = 0
  · simp [h, bind, Except.bind, eq_comm]
  · simp [h, bind, Except.bind]

/-- The validation stops on a division by zero only when the atom-count array has at least
three entries and `nloc = 0`. -/
theorem resolve_division_by_zero (op : ProdForceOp) (inp : Inputs R)
    (h : resolve op inp = Except.error Status.DivisionByZero) :
    inp.natoms.dim_size 0 ≥ 3 ∧ inp.natoms.flat 0 = 0 := by
  unfold resolve at h
  simp only [req_bind_eq_error, idiv_bind_eq_error, pure, Except.pure, reduceCtorEq,
    and_false, false_or, and_true] at h
  obtain ⟨-, -, -, -, -, h6, h⟩ := h
  rcases h with h | ⟨h7, h | ⟨-, h⟩⟩
  · exact ⟨h6, h⟩
  · exact absurd h h7

theorem Compute_eq_error_iff (op : ProdForceOp) (inp : Inputs R) (init : Int → R) (s : Status) :
    Compute op inp init = Except.error s ↔ resolve op inp = Except.error s := by
  unfold Compute
  cases h : resolve op inp with
  | error e => simp [bind, Except.bind]
  | ok dm => simp [bind, Except.bind, pure, Except.pure]

/-- A call that violates the validation conditions, without dividing by zero, fails with an
InvalidArgument error. -/
theorem Compute_invalid_argument (op : ProdForceOp) (inp : Inputs R) (init : Int → R)
    (hbad : ¬ ShapesOk op inp)
    (hdiv : inp.natoms.dim_size 0 ≥ 3 → inp.natoms.flat 0 ≠ 0) :
    ∃ msg, Compute op inp init = Except.error (Status.InvalidArgument msg) := by
  cases h : resolve op inp with
  | ok dm => exact absurd ((resolve_eq_ok_iff op inp dm).1 h).1 hbad
  | error e =>
    cases e with
    | InvalidArgument msg => exact ⟨msg, (Compute_eq_error_iff op inp init _).2 h⟩
    | DivisionByZero =>
      have := resolve_division_by_zero op inp h
      exact absurd this.2 (hdiv this.1)

/-! ## Bookkeeping over the generic ranges -/

theorem mem_generic_range (op : ProdForceOp) (jj a : Int) :
    a ∈ generic_range op jj
      ↔ (jj < op.n_a_sel ∧ 4 * jj ≤ a ∧ a < 4 * jj + 4)
          ∨ (op.n_a_sel ≤ jj ∧ a = 4 * op.n_a_sel + (jj - op.n_a_sel)) := by
  unfold generic_range
  split_ifs with h
  · rw [Finset.mem_Ico]
    omega
  · rw [Finset.mem_singleton]
    omega

/-- The generic ranges of the slots other than two given slots cover exactly the descriptor
components outside the generic ranges of these two slots. -/
theorem generic_range_biUnion_erase (op : ProdForceOp) (ha : 0 ≤ op.n_a_sel)
    (hr : 0 ≤ op.n_r_sel) (a0 a1 : Int) :
    (((Finset.Ico 0 (op.n_a_sel + op.n_r_sel)).erase a0).erase a1).biUnion (generic_range op)
      = (Finset.Ico 0 (4 * op.n_a_sel + op.n_r_sel)).filter
          (fun a => a ∉ generic_range op a0 ∧ a ∉ generic_range op a1) := by
  ext a
  simp only [Finset.mem_biUnion, Finset.mem_erase, Finset.mem_filter, Finset.mem_Ico,
    mem_generic_range]
  constructor
  · rintro ⟨jj, ⟨h1, h0, hjj⟩, h⟩
    omega
  · intro h
    by_cases hlt : a < 4 * op.n_a_sel
    · exact ⟨a / 4, by omega, by omega⟩
    · exact ⟨op.n_a_sel + (a - 4 * op.n_a_sel), by omega, by omega⟩

theorem generic_range_pairwise_disjoint (op : ProdForceOp) (s : Finset Int) :
    (s : Set Int).PairwiseDisjoint (generic_range op) := by
  intro x _ y _ hxy
  show Disjoint (generic_range op x) (generic_range op y)
  rw [Finset.disjoint_left]
  intro a h1 h2
  rw [mem_generic_range] at h1 h2
  omega

/-- Per-atom bookkeeping: with two distinct axis slots in range, the products selected over
all neighbor slots are the full blocks 1 and 2, and block 3 outside the generic ranges of the
two axis slots. -/
theorem atom_bookkeeping (op : ProdForceOp) (ha : 0 ≤ op.n_a_sel) (hr : 0 ≤ op.n_r_sel)
    (inp : Inputs R) (dm : Dims) (hnnei : dm.nnei = op.n_a_sel + op.n_r_sel)
    (hnd : dm.ndescrpt = 4 * op.n_a_sel + op.n_r_sel) (i d : Int)
    (hne : axis_0_of op inp dm i ≠ axis_1_of op inp dm i)
    (h0 : axis_0_of op inp dm i ∈ Finset.Ico 0 dm.nnei)
    (h1 : axis_1_of op inp dm i ∈ Finset.Ico 0 dm.nnei) :
    (∑ jj ∈ Finset.Ico 0 dm.nnei, ∑ a ∈ slot_R op inp dm i jj,
        g_at inp dm i a * J_at inp dm i a (slot_B op inp dm i jj) d)
      = (∑ a ∈ Finset.Ico 0 dm.ndescrpt, g_at inp dm i a * J_at inp dm i a 1 d)
        + (∑ a ∈ Finset.Ico 0 dm.ndescrpt, g_at inp dm i a * J_at inp dm i a 2 d)
        + ∑ a ∈ (Finset.Ico 0 dm.ndescrpt).filter
              (fun a => a ∉ generic_range op (axis_0_of op inp dm i)
                ∧ a ∉ generic_range op (axis_1_of op inp dm i)),
            g_at inp dm i a * J_at inp dm i a 3 d := by
  have h1' : axis_1_of op inp dm i ∈ (Finset.Ico 0 dm.nnei).erase (axis_0_of op inp dm i) :=
    Finset.mem_erase.2 ⟨fun h => hne h.symm, h1⟩
  rw [← Finset.add_sum_erase _ _ h0, ← Finset.add_sum_erase _ _ h1', ← add_assoc]
  congr 1
  · congr 1
    · unfold slot_R slot_B
      simp only [if_true]
    · unfold slot_R slot_B
      have hne' : ¬ axis_1_of op inp dm i = axis_0_of op inp dm i := fun h => hne h.symm
      simp only [if_neg hne', if_true]
  · have hgen : ∀ jj ∈ ((Finset.Ico 0 dm.nnei).erase (axis_0_of op inp dm i)).erase
          (axis_1_of op inp dm i),
        (∑ a ∈ slot_R op inp dm i jj,
            g_at inp dm i a * J_at inp dm i a (slot_B op inp dm i jj) d)
          = ∑ a ∈ generic_range op jj, g_at inp dm i a * J_at inp dm i a 3 d := by
      intro jj hjj
      simp only [Finset.mem_erase] at hjj
      unfold slot_R slot_B
      simp only [if_neg hjj.1, if_neg hjj.2.1]
    rw [Finset.sum_congr rfl hgen, ← Finset.sum_biUnion (generic_range_pairwise_disjoint op _),
      hnnei, hnd, generic_range_biUnion_erase op ha hr]


/-! ## Claims -/

/-- C1 (single-frame reference equation).  For every accepted call with `nframes = 1`,
`nloc ≥ 1` and `nall > nloc`, over exact arithmetic, every local slot `t` in `[0, nloc)` and
every axis `d` in `{0,1,2}`: the returned `force[t,d]` (flat index `3*t + d`) equals the
negated self sum over `a` in `[0, ndescrpt)` of `g[t,a]*J[t,a,0,d]` minus the sum, over the
pairs `(i,jj)` with `nlist[i,jj] ≥ 0` and `fold(nlist[i,jj]) = t`, of the sum over `a` in
`R(i,jj)` of `g[i,a]*J[i,a,B(i,jj),d]`. -/
theorem single_frame_reference_equation (n_a_sel n_r_sel num_threads : Int)
    (inp : Inputs R) (init : Int → R) (dm : Dims) (out : Output R)
    (hres : resolve (ProdForceOp.construct n_a_sel n_r_sel num_threads) inp = Except.ok dm)
    (hacc : Compute (ProdForceOp.construct n_a_sel n_r_sel num_threads) inp init = Except.ok out)
    (hframes : dm.nframes = 1) (_hnloc : 1 ≤ dm.nloc) (_hnall : dm.nloc < dm.nall)
    (t d : Int) (ht0 : 0 ≤ t) (ht : t < dm.nloc) (hd0 : 0 ≤ d) (hd3 : d < 3) :
    out.flat (3 * t + d)
      = reference_force (ProdForceOp.construct n_a_sel n_r_sel num_threads) inp dm t d := by
  exact accepted_single_frame_force _ rfl inp init dm out hres hacc hframes t d ht0 ht hd0 hd3

/-- Witness of C1: the scenario of the specification with Jacobian `J(k) = k`, slot `t = 1`,
axis `d = 0`. -/
theorem single_frame_reference_equation_witness :
    resolve (ProdForceOp.construct 1 0 1) (scenario_inputs (fun k => k)) = Except.ok scenario_dims
      ∧ Compute (ProdForceOp.construct 1 0 1) (scenario_inputs (fun k => k)) (fun _ => 7)
          = Except.ok (scenario_output (fun k => k) (fun _ => 7))
      ∧ scenario_dims.nframes = 1 ∧ 1 ≤ scenario_dims.nloc
      ∧ scenario_dims.nloc < scenario_dims.nall
      ∧ (scenario_output (fun k => k) (fun _ => (7 : Int))).flat (3 * 1 + 0)
          = reference_force (ProdForceOp.construct 1 0 1) (scenario_inputs (fun k => k))
              scenario_dims 1 0 :=
  ⟨rfl, rfl, rfl, by decide, by decide,
    single_frame_reference_equation 1 0 1 (scenario_inputs (fun k => k)) (fun _ => 7)
      scenario_dims (scenario_output (fun k => k) (fun _ => 7)) rfl rfl rfl (by decide)
      (by decide) 1 0 (by decide) (by decide) (by decide) (by decide)⟩

/-- C9 (descriptor-range partition).  For every `n_a_sel ≥ 0` and `n_r_sel ≥ 0` with
`nnei = n_a_sel + n_r_sel`, the half-open ranges `[start(jj), end(jj))` returned by
`make_descript_range` for `jj = 0..nnei-1` have length 4 when `jj < n_a_sel` and 1 otherwise,
satisfy `start(0) = 0` and `end(jj) = start(jj+1)`, and end at `4*n_a_sel + n_r_sel`; they are
pairwise disjoint and cover `[0, 4*n_a_sel + n_r_sel)` with no gap.  For `n_a_sel = 2`,
`n_r_sel = 1` the ranges are `[0,4)`, `[4,8)`, `[8,9)`. -/
theorem descriptor_range_partition (n_a_sel n_r_sel num_threads : Int)
    (ha : 0 ≤ n_a_sel) (hr : 0 ≤ n_r_sel) :
    (∀ jj, 0 ≤ jj → jj < n_a_sel + n_r_sel →
        (make_descript_range (ProdForceOp.construct n_a_sel n_r_sel num_threads) jj).2
          - (make_descript_range (ProdForceOp.construct n_a_sel n_r_sel num_threads) jj).1
          = if jj < n_a_sel then 4 else 1)
      ∧ (make_descript_range (ProdForceOp.construct n_a_sel n_r_sel num_threads) 0).1 = 0
      ∧ (∀ jj, 0 ≤ jj → jj + 1 < n_a_sel + n_r_sel →
          (make_descript_range (ProdForceOp.construct n_a_sel n_r_sel num_threads) jj).2
            = (make_descript_range (ProdForceOp.construct n_a_sel n_r_sel num_threads)
                (jj + 1)).1)
      ∧ (0 < n_a_sel + n_r_sel →
          (make_descript_range (ProdForceOp.construct n_a_sel n_r_sel num_threads)
              (n_a_sel + n_r_sel - 1)).2 = 4 * n_a_sel + n_r_sel)
      ∧ (∀ jj jj', 0 ≤ jj → jj < n_a_sel + n_r_sel → 0 ≤ jj' → jj' < n_a_sel + n_r_sel →
          jj ≠ jj' →
          Disjoint
            (Finset.Ico
              (make_descript_range (ProdForceOp.construct n_a_sel n_r_sel num_threads) jj).1
              (make_descript_range (ProdForceOp.construct n_a_sel n_r_sel num_threads) jj).2)
            (Finset.Ico
              (make_descript_range (ProdForceOp.construct n_a_sel n_r_sel num_threads) jj').1
              (make_descript_range (ProdForceOp.construct n_a_sel n_r_sel num_threads) jj').2))
      ∧ (Finset.Ico 0 (n_a_sel + n_r_sel)).biUnion
          (fun jj => Finset.Ico
            (make_descript_range (ProdForceOp.construct n_a_sel n_r_sel num_threads) jj).1
            (make_descript_range (ProdForceOp.construct n_a_sel n_r_sel num_threads) jj).2)
          = Finset.Ico 0 (4 * n_a_sel + n_r_sel)
      ∧ (make_descript_range (ProdForceOp.construct 2 1 num_threads) 0 = (0, 4)
          ∧ make_descript_range (ProdForceOp.construct 2 1 num_threads) 1 = (4, 8)
          ∧ make_descript_range (ProdForceOp.construct 2 1 num_threads) 2 = (8, 9)) := by
  have hs : (ProdForceOp.construct n_a_sel n_r_sel num_threads).n_a_shift
      = (ProdForceOp.construct n_a_sel n_r_sel num_threads).n_a_sel * 4 := rfl
  have hsel : (ProdForceOp.construct n_a_sel n_r_sel num_threads).n_a_sel = n_a_sel := rfl
  have hrel : (ProdForceOp.construct n_a_sel n_r_sel num_threads).n_r_sel = n_r_sel := rfl
  refine ⟨?_, ?_, ?_, ?_, ?_, ?_, ?_⟩
  · intro jj _ _
    rw [mdr_fst _ hs, mdr_snd _ hs, hsel]
    split_ifs <;> omega
  · rw [mdr_fst _ hs, hsel]
    split_ifs <;> omega
  · intro jj _ _
    rw [mdr_fst _ hs, mdr_snd _ hs, hsel]
    split_ifs <;> omega
  · intro _
    rw [mdr_snd _ hs, hsel]
    split_ifs <;> omega
  · intro jj jj' _ _ _ _ hne
    exact mdr_disjoint _ hs jj jj' hne
  · have h := mdr_biUnion _ hs (by rw [hsel]; exact ha) (by rw [hrel]; exact hr)
    rw [hsel, hrel] at h
    exact h
  · exact ⟨rfl, rfl, rfl⟩

/-- Witness of C9: `n_a_sel = 2`, `n_r_sel = 1`. -/
theorem descriptor_range_partition_witness :
    (0 : Int) ≤ 2 ∧ (0 : Int) ≤ 1
      ∧ (Finset.Ico 0 ((2 : Int) + 1)).biUnion
          (fun jj => Finset.Ico
            (make_descript_range (ProdForceOp.construct 2 1 1) jj).1
            (make_descript_range (ProdForceOp.construct 2 1 1) jj).2)
          = Finset.Ico 0 (4 * 2 + 1)
      ∧ (make_descript_range (ProdForceOp.construct 2 1 1) 0 = (0, 4)
          ∧ make_descript_range (ProdForceOp.construct 2 1 1) 1 = (4, 8)
          ∧ make_descript_range (ProdForceOp.construct 2 1 1) 2 = (8, 9)) :=
  ⟨by decide, by decide,
    (descriptor_range_partition 2 1 1 (by decide) (by decide)).2.2.2.2.2⟩

/-- Where the leading dimension of the descriptor gradient and the two quotients by `nloc` are
values of an `int` (below `2^31`), each violation of a shape constraint makes `Compute` fail
with an InvalidArgument error, without output. -/
theorem shape_rejection_within_int (op : ProdForceOp) (inp : Inputs R) (init : Int → R)
    (hf : inp.net_deriv.dim_size 0 < 2147483648)
    (hg : Int.tdiv (inp.net_deriv.dim_size 1) (inp.natoms.flat 0) < 2147483648)
    (hl : Int.tdiv (inp.nlist.dim_size 1) (inp.natoms.flat 0) < 2147483648)
    (h : inp.natoms.dim_size 0 < 3
      ∨ (1 ≤ inp.natoms.flat 0
          ∧ (inp.in_deriv.dim_size 0 ≠ inp.net_deriv.dim_size 0
            ∨ inp.nlist.dim_size 0 ≠ inp.net_deriv.dim_size 0
            ∨ inp.axis.dim_size 0 ≠ inp.net_deriv.dim_size 0
            ∨ inp.in_deriv.dim_size 1
                ≠ inp.natoms.flat 0 * Int.tdiv (inp.net_deriv.dim_size 1) (inp.natoms.flat 0) * 12
            ∨ Int.tdiv (inp.nlist.dim_size 1) (inp.natoms.flat 0) ≠ op.n_a_sel + op.n_r_sel
            ∨ inp.axis.dim_size 1 ≠ inp.natoms.flat 0 * 4))) :
    (∃ msg, Compute op inp init = Except.error (Status.InvalidArgument msg))
      ∧ ∀ out, Compute op inp init ≠ Except.ok out := by
  have e0 : to_int32 (inp.net_deriv.dim_size 0) = inp.net_deriv.dim_size 0 :=
    to_int32_of_fits _ (by have := dim_size_nonneg inp.net_deriv 0; omega) hf
  have hbad : ¬ ShapesOk op inp := by
    rintro ⟨-, -, -, -, -, h6, -, h8, h9, h10, h11, h12, h13⟩
    rw [e0] at h8 h9 h10
    rcases h with h | ⟨hn, h⟩
    · omega
    · have eg : to_int32 (Int.tdiv (inp.net_deriv.dim_size 1) (inp.natoms.flat 0))
          = Int.tdiv (inp.net_deriv.dim_size 1) (inp.natoms.flat 0) :=
        to_int32_of_fits _
          (by have := (tdiv_bounds _ _ (dim_size_nonneg inp.net_deriv 1) hn).1; omega) hg
      have el : to_int32 (Int.tdiv (inp.nlist.dim_size 1) (inp.natoms.flat 0))
          = Int.tdiv (inp.nlist.dim_size 1) (inp.natoms.flat 0) :=
        to_int32_of_fits _
          (by have := (tdiv_bounds _ _ (dim_size_nonneg inp.nlist 1) hn).1; omega) hl
      rw [eg] at h11
      rw [el] at h12
      rcases h with h | h | h | h | h | h
      · exact h h8.symm
      · exact h h9.symm
      · exact h h10.symm
      · exact h h11.symm
      · exact h h12
      · exact h h13.symm
  have hdiv : inp.natoms.dim_size 0 ≥ 3 → inp.natoms.flat 0 ≠ 0 := by
    intro h3
    rcases h with h | ⟨h, -⟩ <;> omega
  obtain ⟨msg, hmsg⟩ := Compute_invalid_argument op inp init hbad hdiv
  refine ⟨⟨msg, hmsg⟩, ?_⟩
  intro out hout
  rw [hmsg] at hout
  cases hout

/-- C3 (shape rejection), evaluation at the failing inputs.  On `wide_leading_inputs`
(`nloc = 1`) the leading dimension of the descriptor gradient is 4294967297 and that of the
Jacobian, of the neighbor list and of the axis descriptor is 1; line 68 stores the former in
the `int` `nframes`, which becomes 1, so every check of lines 75-81 passes and `Compute`
returns an output of shape `[1, 3]`.  On `wide_gradient_inputs` (`nloc = 1`) the Jacobian
width 48 differs from `nloc * (4294967300 / nloc) * 12`; line 71 stores the quotient in the
`int` `ndescrpt`, which becomes 4, and `Compute` returns an output as well. -/
theorem shape_rejection_failing_input :
    (1 ≤ wide_leading_inputs.natoms.flat 0
        ∧ wide_leading_inputs.in_deriv.dim_size 0 ≠ wide_leading_inputs.net_deriv.dim_size 0
        ∧ wide_leading_inputs.nlist.dim_size 0 ≠ wide_leading_inputs.net_deriv.dim_size 0
        ∧ wide_leading_inputs.axis.dim_size 0 ≠ wide_leading_inputs.net_deriv.dim_size 0
        ∧ resolve (ProdForceOp.construct 0 0 1) wide_leading_inputs
            = Except.ok wide_leading_dims
        ∧ Compute (ProdForceOp.construct 0 0 1) wide_leading_inputs (fun _ => 7)
            = Except.ok (wide_leading_output (fun _ => 7))
        ∧ (wide_leading_output (fun _ => 7)).shape = [1, 3]
        ∧ (wide_leading_output (fun _ => 7)).flat 0 = 0)
      ∧ (1 ≤ wide_gradient_inputs.natoms.flat 0
        ∧ wide_gradient_inputs.in_deriv.dim_size 1
            ≠ wide_gradient_inputs.natoms.flat 0
              * Int.tdiv (wide_gradient_inputs.net_deriv.dim_size 1)
                  (wide_gradient_inputs.natoms.flat 0) * 12
        ∧ resolve (ProdForceOp.construct 0 0 1) wide_gradient_inputs
            = Except.ok wide_gradient_dims
        ∧ Compute (ProdForceOp.construct 0 0 1) wide_gradient_inputs (fun _ => 7)
            = Except.ok ⟨[0, 3], fun _ => 7⟩) :=
  ⟨⟨by decide, by decide, by decide, by decide, rfl, rfl, rfl, rfl⟩,
    ⟨by decide, by decide, rfl, rfl⟩⟩

/-- C10 (zero-neighbor self-consistency).  For every accepted single-frame call over exact
arithmetic and every local atom `i` whose neighbor slots are all negative and to which no
neighbor slot of any local atom resolves after folding: for each `d`, `force[i,d]` equals
exactly the negated sum over `a` in `[0, ndescrpt)` of `g[i,a]*J[i,a,0,d]`. -/
theorem zero_neighbor_self_consistency (n_a_sel n_r_sel num_threads : Int)
    (inp : Inputs R) (init : Int → R) (dm : Dims) (out : Output R)
    (hres : resolve (ProdForceOp.construct n_a_sel n_r_sel num_threads) inp = Except.ok dm)
    (hacc : Compute (ProdForceOp.construct n_a_sel n_r_sel num_threads) inp init = Except.ok out)
    (hframes : dm.nframes = 1)
    (i : Int) (hi0 : 0 ≤ i) (hi : i < dm.nloc)
    (_hneg : ∀ jj, 0 ≤ jj → jj < dm.nnei → nlist_at inp dm i jj < 0)
    (hnone : ∀ i' jj, 0 ≤ i' → i' < dm.nloc → 0 ≤ jj → jj < dm.nnei →
      0 ≤ nlist_at inp dm i' jj → fold dm.nloc (nlist_at inp dm i' jj) ≠ i)
    (d : Int) (hd0 : 0 ≤ d) (hd3 : d < 3) :
    out.flat (3 * i + d)
      = -(∑ a ∈ Finset.Ico 0 dm.ndescrpt, g_at inp dm i a * J_at inp dm i a 0 d) := by
  rw [accepted_single_frame_force _ rfl inp init dm out hres hacc hframes i d hi0 hi hd0 hd3]
  unfold reference_force
  have hz : (∑ i' ∈ Finset.Ico 0 dm.nloc, ∑ jj ∈ Finset.Ico 0 dm.nnei,
      if 0 ≤ nlist_at inp dm i' jj ∧ fold dm.nloc (nlist_at inp dm i' jj) = i then
        ∑ a ∈ slot_R (ProdForceOp.construct n_a_sel n_r_sel num_threads) inp dm i' jj,
          g_at inp dm i' a * J_at inp dm i' a
            (slot_B (ProdForceOp.construct n_a_sel n_r_sel num_threads) inp dm i' jj) d
      else 0) = 0 := by
    refine Finset.sum_eq_zero (fun i' hi' => Finset.sum_eq_zero (fun jj hjj => ?_))
    rw [Finset.mem_Ico] at hi' hjj
    rw [if_neg]
    rintro ⟨h1, h2⟩
    exact hnone i' jj hi'.1 hi'.2 hjj.1 hjj.2 h1 h2
  rw [hz, sub_zero]

/-- Witness of C10: two atoms without neighbors, Jacobian `J(k) = k`, atom `i = 1`, `d = 2`. -/
theorem zero_neighbor_self_consistency_witness :
    resolve (ProdForceOp.construct 1 0 1) (isolated_inputs (fun k => (k : Int)))
        = Except.ok scenario_dims
      ∧ Compute (ProdForceOp.construct 1 0 1) (isolated_inputs (fun k => (k : Int))) (fun _ => 7)
          = Except.ok (isolated_output (fun k => k) (fun _ => 7))
      ∧ scenario_dims.nframes = 1
      ∧ (isolated_output (fun k => (k : Int)) (fun _ => 7)).flat (3 * 1 + 2)
          = -(∑ a ∈ Finset.Ico 0 scenario_dims.ndescrpt,
                g_at (isolated_inputs (fun k => (k : Int))) scenario_dims 1 a
                  * J_at (isolated_inputs (fun k => (k : Int))) scenario_dims 1 a 0 2) :=
  ⟨rfl, rfl, rfl,
    zero_neighbor_self_consistency 1 0 1 (isolated_inputs (fun k => (k : Int))) (fun _ => 7)
      scenario_dims (isolated_output (fun k => k) (fun _ => 7)) rfl rfl rfl
      1 (by decide) (by decide)
      (fun jj _ _ => show (-1 : Int) < 0 by decide)
      (fun i' jj _ _ _ _ h => absurd (show (0 : Int) ≤ -1 from h) (by decide))
      2 (by decide) (by decide)⟩

/-- C8 (axis override).  For every accepted single-frame call, every local atom `i` and every
slot `jj` whose neighbor entry `j = nlist[i,jj]` lies in `[0, nloc)`: if `jj` is the resolved
`axis_0` of atom `i`, processing slot `jj` subtracts from `force[j,d]` the sum over the full
range `a` in `[0, ndescrpt)` of `g[i,a]*J[i,a,1,d]`, and if `jj` is the resolved `axis_1`
(and not `axis_0`) it subtracts the full-range sum of `g[i,a]*J[i,a,2,d]`.  In the scenario
of the specification (`nloc=2`, `nall=3`, `n_a_sel=1`, `n_r_sel=0`, `ndescrpt=4`, unit
gradients) the call is accepted, `force[0,d] = -sum_a J[0,a,0,d]` and
`force[1,d] = -sum_a (J[1,a,0,d] + J[0,a,1,d])`. -/
theorem axis_override :
    (∀ (n_a_sel n_r_sel num_threads : Int) (inp : Inputs R) (dm : Dims),
      resolve (ProdForceOp.construct n_a_sel n_r_sel num_threads) inp = Except.ok dm →
      dm.nframes = 1 →
      ∀ (i jj d : Int) (m : ForceBuf R), 0 ≤ i → i < dm.nloc → 0 ≤ jj → jj < dm.nnei →
        0 ≤ nlist_at inp dm i jj → nlist_at inp dm i jj < dm.nloc → 0 ≤ d → d < 3 →
        (jj = axis_0_of (ProdForceOp.construct n_a_sel n_r_sel num_threads) inp dm i →
          (neighbor_term (ProdForceOp.construct n_a_sel n_r_sel num_threads) inp dm
              (frame_iters dm 0) i
              (axis_0_of (ProdForceOp.construct n_a_sel n_r_sel num_threads) inp dm i)
              (axis_1_of (ProdForceOp.construct n_a_sel n_r_sel num_threads) inp dm i)
              jj m).force (3 * nlist_at inp dm i jj + d)
            = m.force (3 * nlist_at inp dm i jj + d)
              - ∑ a ∈ Finset.Ico 0 dm.ndescrpt, g_at inp dm i a * J_at inp dm i a 1 d)
        ∧ (jj ≠ axis_0_of (ProdForceOp.construct n_a_sel n_r_sel num_threads) inp dm i →
            jj = axis_1_of (ProdForceOp.construct n_a_sel n_r_sel num_threads) inp dm i →
          (neighbor_term (ProdForceOp.construct n_a_sel n_r_sel num_threads) inp dm
              (frame_iters dm 0) i
              (axis_0_of (ProdForceOp.construct n_a_sel n_r_sel num_threads) inp dm i)
              (axis_1_of (ProdForceOp.construct n_a_sel n_r_sel num_threads) inp dm i)
              jj m).force (3 * nlist_at inp dm i jj + d)
            = m.force (3 * nlist_at inp dm i jj + d)
              - ∑ a ∈ Finset.Ico 0 dm.ndescrpt, g_at inp dm i a * J_at inp dm i a 2 d))
      ∧ (∀ (jac init : Int → R) (d : Int), 0 ≤ d → d < 3 →
          Compute (ProdForceOp.construct 1 0 1) (scenario_inputs jac) init
              = Except.ok (scenario_output jac init)
            ∧ (scenario_output jac init).flat (3 * 0 + d)
                = -(∑ a ∈ Finset.Ico 0 4, J_at (scenario_inputs jac) scenario_dims 0 a 0 d)
            ∧ (scenario_output jac init).flat (3 * 1 + d)
                = -(∑ a ∈ Finset.Ico 0 4,
                      (J_at (scenario_inputs jac) scenario_dims 1 a 0 d
                        + J_at (scenario_inputs jac) scenario_dims 0 a 1 d))) := by
  constructor
  · intro n_a_sel n_r_sel num_threads inp dm _ _ i jj d m _ _ _ _ hj0 hj hd0 hd3
    have htgt : target_slot inp.nlist.flat dm (frame_iters dm 0) i jj = nlist_at inp dm i jj := by
      rw [target_slot_eq_fold inp dm i jj (by omega)]
      unfold fold
      rw [if_neg (by omega)]
    have hp : 3 * nlist_at inp dm i jj + d
        = (frame_iters dm 0).force_iter + nlist_at inp dm i jj * 3 + d := by
      simp only [frame_iters, zero_mul, zero_add]
      ring
    have key : ∀ a0 a1 : Int,
        (neighbor_term (ProdForceOp.construct n_a_sel n_r_sel num_threads) inp dm
          (frame_iters dm 0) i a0 a1 jj m).force (3 * nlist_at inp dm i jj + d)
        = m.force (3 * nlist_at inp dm i jj + d)
          - ∑ aa ∈ used_range (ProdForceOp.construct n_a_sel n_r_sel num_threads) dm a0 a1 jj,
              g_at inp dm i aa
                * inp.in_deriv.flat (i * dm.ndescrpt * 12 + aa * 12 + used_offset a0 a1 jj + d) := by
      intro a0 a1
      rw [neighbor_term_subtracts _ inp dm (frame_iters dm 0) i a0 a1 jj m, hp,
        neighbor_delta_local _ inp dm (frame_iters dm 0) i a0 a1 jj _ d hd0 hd3,
        if_pos ⟨by rw [htgt]; exact hj0, htgt⟩]
      unfold g_at
      simp only [frame_iters, zero_mul, zero_add]
    constructor
    · intro h0
      rw [key]
      unfold used_range used_offset J_at
      simp only [if_pos h0]
      norm_num
    · intro h0 h1
      rw [key]
      unfold used_range used_offset J_at
      simp only [if_neg h0, if_pos h1]
      norm_num
  · intro jac init d hd0 hd3
    have hJ : Finset.Ico (0 : Int) 2 = {0, 1} := by decide
    have hI : Finset.Ico (0 : Int) 1 = {0} := by decide
    have hres : resolve (ProdForceOp.construct 1 0 1) (scenario_inputs jac)
        = Except.ok scenario_dims := by with_unfolding_all rfl
    have hacc : Compute (ProdForceOp.construct 1 0 1) (scenario_inputs jac) init
        = Except.ok (scenario_output jac init) := by with_unfolding_all rfl
    refine ⟨hacc, ?_, ?_⟩
    · rw [accepted_single_frame_force (ProdForceOp.construct 1 0 1) rfl (scenario_inputs jac)
        init scenario_dims _ hres hacc rfl 0 d (by decide) (by decide) hd0 hd3]
      simp [reference_force, scenario_dims, hJ, hI, nlist_at, scenario_inputs, fold, g_at]
    · rw [accepted_single_frame_force (ProdForceOp.construct 1 0 1) rfl (scenario_inputs jac)
        init scenario_dims _ hres hacc rfl 1 d (by decide) (by decide) hd0 hd3]
      simp [reference_force, scenario_dims, hJ, hI, nlist_at, scenario_inputs, fold, g_at,
        slot_R, generic_range, slot_B, axis_0_of, set_axes, frame_iters, Finset.sum_add_distrib]
      ring

set_option maxRecDepth 100000 in
/-- C7, counterexample.  On `negative_sel_inputs` (`n_a_sel = 3`, `n_r_sel = -1`) the call is
accepted as a single frame with `nloc = 2`, `nnei = 2` and `ndescrpt = 11 = 4*n_a_sel +
n_r_sel`, every neighbor entry lies in `[0, nloc)`, and for both atoms the resolved axes are
the distinct slots 0 and 1 of `[0, nnei)`.  Both slots are axis slots, so the accumulation
uses no Jacobian block 3 and the forces of component `d = 0` sum to `-3`; the components 8, 9
and 10 belong to the generic range of neither axis slot, so the right side of the claim counts
`g[0,8]*J[0,8,3,0]` and is `-4`. -/
theorem action_reaction_counterexample :
    resolve (ProdForceOp.construct 3 (-1) 1) negative_sel_inputs = Except.ok negative_sel_dims
      ∧ Compute (ProdForceOp.construct 3 (-1) 1) negative_sel_inputs (fun _ => 0)
          = Except.ok negative_sel_output
      ∧ negative_sel_dims.nframes = 1
      ∧ (∀ i jj, 0 ≤ i → i < negative_sel_dims.nloc → 0 ≤ jj → jj < negative_sel_dims.nnei →
          0 ≤ nlist_at negative_sel_inputs negative_sel_dims i jj
            ∧ nlist_at negative_sel_inputs negative_sel_dims i jj < negative_sel_dims.nloc)
      ∧ negative_sel_dims.ndescrpt = 4 * 3 + (-1)
      ∧ (∀ i, 0 ≤ i → i < negative_sel_dims.nloc →
          axis_0_of (ProdForceOp.construct 3 (-1) 1) negative_sel_inputs negative_sel_dims i
              ≠ axis_1_of (ProdForceOp.construct 3 (-1) 1) negative_sel_inputs
                  negative_sel_dims i
            ∧ 0 ≤ axis_0_of (ProdForceOp.construct 3 (-1) 1) negative_sel_inputs
                  negative_sel_dims i
            ∧ axis_0_of (ProdForceOp.construct 3 (-1) 1) negative_sel_inputs
                  negative_sel_dims i < negative_sel_dims.nnei
            ∧ 0 ≤ axis_1_of (ProdForceOp.construct 3 (-1) 1) negative_sel_inputs
                  negative_sel_dims i
            ∧ axis_1_of (ProdForceOp.construct 3 (-1) 1) negative_sel_inputs
                  negative_sel_dims i < negative_sel_dims.nnei)
      ∧ ∑ t ∈ Finset.Ico 0 negative_sel_dims.nloc, negative_sel_output.flat (3 * t + 0) = -3
      ∧ -(∑ i ∈ Finset.Ico 0 negative_sel_dims.nloc,
            ((∑ a ∈ Finset.Ico 0 negative_sel_dims.ndescrpt,
                g_at negative_sel_inputs negative_sel_dims i a
                  * (J_at negative_sel_inputs negative_sel_dims i a 0 0
                      + J_at negative_sel_inputs negative_sel_dims i a 1 0
                      + J_at negative_sel_inputs negative_sel_dims i a 2 0))
              + ∑ a ∈ (Finset.Ico 0 negative_sel_dims.ndescrpt).filter
                    (fun a =>
                      a ∉ generic_range (ProdForceOp.construct 3 (-1) 1)
                            (axis_0_of (ProdForceOp.construct 3 (-1) 1)
                              negative_sel_inputs negative_sel_dims i)
                      ∧ a ∉ generic_range (ProdForceOp.construct 3 (-1) 1)
                            (axis_1_of (ProdForceOp.construct 3 (-1) 1)
                              negative_sel_inputs negative_sel_dims i)),
                  g_at negative_sel_inputs negative_sel_dims i a
                    * J_at negative_sel_inputs negative_sel_dims i a 3 0)) = -4
      ∧ ¬ (∑ t ∈ Finset.Ico 0 negative_sel_dims.nloc, negative_sel_output.flat (3 * t + 0)
          = -(∑ i ∈ Finset.Ico 0 negative_sel_dims.nloc,
                ((∑ a ∈ Finset.Ico 0 negative_sel_dims.ndescrpt,
                    g_at negative_sel_inputs negative_sel_dims i a
                      * (J_at negative_sel_inputs negative_sel_dims i a 0 0
                          + J_at negative_sel_inputs negative_sel_dims i a 1 0
                          + J_at negative_sel_inputs negative_sel_dims i a 2 0))
                  + ∑ a ∈ (Finset.Ico 0 negative_sel_dims.ndescrpt).filter
                        (fun a =>
                          a ∉ generic_range (ProdForceOp.construct 3 (-1) 1)
                                (axis_0_of (ProdForceOp.construct 3 (-1) 1)
                                  negative_sel_inputs negative_sel_dims i)
                          ∧ a ∉ generic_range (ProdForceOp.construct 3 (-1) 1)
                                (axis_1_of (ProdForceOp.construct 3 (-1) 1)
                                  negative_sel_inputs negative_sel_dims i)),
                      g_at negative_sel_inputs negative_sel_dims i a
                        * J_at negative_sel_inputs negative_sel_dims i a 3 0))) := by
  refine ⟨rfl, rfl, rfl, ?_, rfl, ?_, by decide, by decide, by decide⟩
  · intro i jj _ _ _ _
    show 0 ≤ (if i * 2 + jj < 2 then (1 : Int) else 0)
      ∧ (if i * 2 + jj < 2 then (1 : Int) else 0) < 2
    split_ifs <;> decide
  · intro i hi0 hi2
    have hi : i = 0 ∨ i = 1 := by
      have h2 : i < 2 := hi2
      omega
    rcases hi with h | h <;> subst h <;> decide

/-- C7, amended.  For every accepted single-frame call over exact arithmetic with selection
counts `n_a_sel ≥ 0` and `n_r_sel ≥ 0`, in which every neighbor entry lies in `[0, nloc)`,
`ndescrpt = 4*n_a_sel + n_r_sel`, and for every local atom the resolved `axis_0` and `axis_1`
are distinct slots in `[0, nnei)`: for each `d`, the sum over the local slots `t` of
`force[t,d]` equals minus the sum over `i` of the full-range sum of
`g[i,a]*(J[i,a,0,d] + J[i,a,1,d] + J[i,a,2,d])` plus the sum, over the components `a` outside
the generic ranges of the slots `axis_0(i)` and `axis_1(i)`, of `g[i,a]*J[i,a,3,d]`. -/
theorem action_reaction_bookkeeping (n_a_sel n_r_sel num_threads : Int)
    (inp : Inputs R) (init : Int → R) (dm : Dims) (out : Output R)
    (hres : resolve (ProdForceOp.construct n_a_sel n_r_sel num_threads) inp = Except.ok dm)
    (hacc : Compute (ProdForceOp.construct n_a_sel n_r_sel num_threads) inp init = Except.ok out)
    (hframes : dm.nframes = 1) (ha : 0 ≤ n_a_sel) (hr : 0 ≤ n_r_sel)
    (hin : ∀ i jj, 0 ≤ i → i < dm.nloc → 0 ≤ jj → jj < dm.nnei →
      0 ≤ nlist_at inp dm i jj ∧ nlist_at inp dm i jj < dm.nloc)
    (hnd : dm.ndescrpt = 4 * n_a_sel + n_r_sel)
    (hax : ∀ i, 0 ≤ i → i < dm.nloc →
      axis_0_of (ProdForceOp.construct n_a_sel n_r_sel num_threads) inp dm i
          ≠ axis_1_of (ProdForceOp.construct n_a_sel n_r_sel num_threads) inp dm i
        ∧ 0 ≤ axis_0_of (ProdForceOp.construct n_a_sel n_r_sel num_threads) inp dm i
        ∧ axis_0_of (ProdForceOp.construct n_a_sel n_r_sel num_threads) inp dm i < dm.nnei
        ∧ 0 ≤ axis_1_of (ProdForceOp.construct n_a_sel n_r_sel num_threads) inp dm i
        ∧ axis_1_of (ProdForceOp.construct n_a_sel n_r_sel num_threads) inp dm i < dm.nnei)
    (d : Int) (hd0 : 0 ≤ d) (hd3 : d < 3) :
    ∑ t ∈ Finset.Ico 0 dm.nloc, out.flat (3 * t + d)
      = -(∑ i ∈ Finset.Ico 0 dm.nloc,
            ((∑ a ∈ Finset.Ico 0 dm.ndescrpt,
                g_at inp dm i a
                  * (J_at inp dm i a 0 d + J_at inp dm i a 1 d + J_at inp dm i a 2 d))
              + ∑ a ∈ (Finset.Ico 0 dm.ndescrpt).filter
                    (fun a =>
                      a ∉ generic_range (ProdForceOp.construct n_a_sel n_r_sel num_threads)
                            (axis_0_of (ProdForceOp.construct n_a_sel n_r_sel num_threads)
                              inp dm i)
                      ∧ a ∉ generic_range (ProdForceOp.construct n_a_sel n_r_sel num_threads)
                            (axis_1_of (ProdForceOp.construct n_a_sel n_r_sel num_threads)
                              inp dm i)),
                  g_at inp dm i a * J_at inp dm i a 3 d)) := by
  have hnnei : dm.nnei = n_a_sel + n_r_sel := by
    obtain ⟨hs, rfl⟩ := (resolve_eq_ok_iff _ inp dm).1 hres
    exact hs.2.2.2.2.2.2.2.2.2.2.2.1
  have hforce : ∀ t ∈ Finset.Ico 0 dm.nloc, out.flat (3 * t + d)
      = reference_force (ProdForceOp.construct n_a_sel n_r_sel num_threads) inp dm t d := by
    intro t ht
    rw [Finset.mem_Ico] at ht
    exact accepted_single_frame_force _ rfl inp init dm out hres hacc hframes t d ht.1 ht.2
      hd0 hd3
  rw [Finset.sum_congr rfl hforce]
  unfold reference_force
  have hinner : ∀ i ∈ Finset.Ico 0 dm.nloc,
      (∑ t ∈ Finset.Ico 0 dm.nloc, ∑ jj ∈ Finset.Ico 0 dm.nnei,
        if 0 ≤ nlist_at inp dm i jj ∧ fold dm.nloc (nlist_at inp dm i jj) = t then
          ∑ a ∈ slot_R (ProdForceOp.construct n_a_sel n_r_sel num_threads) inp dm i jj,
            g_at inp dm i a * J_at inp dm i a
              (slot_B (ProdForceOp.construct n_a_sel n_r_sel num_threads) inp dm i jj) d
        else 0)
      = ∑ jj ∈ Finset.Ico 0 dm.nnei,
          ∑ a ∈ slot_R (ProdForceOp.construct n_a_sel n_r_sel num_threads) inp dm i jj,
            g_at inp dm i a * J_at inp dm i a
              (slot_B (ProdForceOp.construct n_a_sel n_r_sel num_threads) inp dm i jj) d := by
    intro i hi
    rw [Finset.mem_Ico] at hi
    rw [Finset.sum_comm]
    refine Finset.sum_congr rfl (fun jj hjj => ?_)
    rw [Finset.mem_Ico] at hjj
    obtain ⟨h0, h1⟩ := hin i jj hi.1 hi.2 hjj.1 hjj.2
    have hfold : fold dm.nloc (nlist_at inp dm i jj) = nlist_at inp dm i jj := by
      unfold fold
      rw [if_neg (by omega)]
    simp only [hfold, h0, true_and]
    rw [Finset.sum_ite_eq, if_pos (Finset.mem_Ico.2 ⟨h0, h1⟩)]
  have hswap : (∑ t ∈ Finset.Ico 0 dm.nloc, ∑ i ∈ Finset.Ico 0 dm.nloc,
      ∑ jj ∈ Finset.Ico 0 dm.nnei,
        if 0 ≤ nlist_at inp dm i jj ∧ fold dm.nloc (nlist_at inp dm i jj) = t then
          ∑ a ∈ slot_R (ProdForceOp.construct n_a_sel n_r_sel num_threads) inp dm i jj,
            g_at inp dm i a * J_at inp dm i a
              (slot_B (ProdForceOp.construct n_a_sel n_r_sel num_threads) inp dm i jj) d
        else 0)
      = ∑ i ∈ Finset.Ico 0 dm.nloc, ∑ jj ∈ Finset.Ico 0 dm.nnei,
          ∑ a ∈ slot_R (ProdForceOp.construct n_a_sel n_r_sel num_threads) inp dm i jj,
            g_at inp dm i a * J_at inp dm i a
              (slot_B (ProdForceOp.construct n_a_sel n_r_sel num_threads) inp dm i jj) d := by
    rw [Finset.sum_comm]
    exact Finset.sum_congr rfl hinner
  rw [Finset.sum_sub_distrib, Finset.sum_neg_distrib, hswap, sub_eq_add_neg, ← neg_add,
    ← Finset.sum_add_distrib]
  congr 1
  refine Finset.sum_congr rfl (fun i hi => ?_)
  rw [Finset.mem_Ico] at hi
  obtain ⟨hne, a0l, a0u, a1l, a1u⟩ := hax i hi.1 hi.2
  rw [atom_bookkeeping (ProdForceOp.construct n_a_sel n_r_sel num_threads) ha hr inp dm hnnei
    hnd i d hne (Finset.mem_Ico.2 ⟨a0l, a0u⟩) (Finset.mem_Ico.2 ⟨a1l, a1u⟩)]
  simp only [mul_add, Finset.sum_add_distrib]
  ring

set_option maxRecDepth 100000 in
/-- Witness of the amended C7: the fully in-range frame `generic_slot_inputs`
(`n_a_sel = 2`, `n_r_sel = 1`, axis slots 0 and 2, generic slot 1), axis `d = 0`; the
components outside the generic ranges of the two axis slots of atom 0 are `[4, 8)`, those of
the generic slot. -/
theorem action_reaction_bookkeeping_witness :
    resolve (ProdForceOp.construct 2 1 1) generic_slot_inputs = Except.ok generic_slot_dims
      ∧ Compute (ProdForceOp.construct 2 1 1) generic_slot_inputs (fun _ => 0)
          = Except.ok generic_slot_output
      ∧ generic_slot_dims.nframes = 1 ∧ (0 : Int) ≤ 2 ∧ (0 : Int) ≤ 1
      ∧ generic_slot_dims.ndescrpt = 4 * 2 + 1
      ∧ (Finset.Ico 0 generic_slot_dims.ndescrpt).filter
            (fun a =>
              a ∉ generic_range (ProdForceOp.construct 2 1 1)
                    (axis_0_of (ProdForceOp.construct 2 1 1)
                      generic_slot_inputs generic_slot_dims 0)
              ∧ a ∉ generic_range (ProdForceOp.construct 2 1 1)
                    (axis_1_of (ProdForceOp.construct 2 1 1)
                      generic_slot_inputs generic_slot_dims 0))
          = Finset.Ico 4 8
      ∧ ∑ t ∈ Finset.Ico 0 generic_slot_dims.nloc, generic_slot_output.flat (3 * t + 0)
          = -(∑ i ∈ Finset.Ico 0 generic_slot_dims.nloc,
                ((∑ a ∈ Finset.Ico 0 generic_slot_dims.ndescrpt,
                    g_at generic_slot_inputs generic_slot_dims i a
                      * (J_at generic_slot_inputs generic_slot_dims i a 0 0
                          + J_at generic_slot_inputs generic_slot_dims i a 1 0
                          + J_at generic_slot_inputs generic_slot_dims i a 2 0))
                  + ∑ a ∈ (Finset.Ico 0 generic_slot_dims.ndescrpt).filter
                        (fun a =>
                          a ∉ generic_range (ProdForceOp.construct 2 1 1)
                                (axis_0_of (ProdForceOp.construct 2 1 1)
                                  generic_slot_inputs generic_slot_dims i)
                          ∧ a ∉ generic_range (ProdForceOp.construct 2 1 1)
                                (axis_1_of (ProdForceOp.construct 2 1 1)
                                  generic_slot_inputs generic_slot_dims i)),
                      g_at generic_slot_inputs generic_slot_dims i a
                        * J_at generic_slot_inputs generic_slot_dims i a 3 0)) :=
  ⟨rfl, rfl, rfl, by decide, by decide, rfl, by decide,
    action_reaction_bookkeeping 2 1 1 generic_slot_inputs (fun _ => 0) generic_slot_dims
      generic_slot_output rfl rfl rfl (by decide) (by decide)
      (by
        intro i jj _ _ _ _
        show 0 ≤ (if i * 3 + jj < 3 then (1 : Int) else 0)
          ∧ (if i * 3 + jj < 3 then (1 : Int) else 0) < 2
        split_ifs <;> decide)
      rfl
      (by
        intro i hi0 hi2
        have hi : i = 0 ∨ i = 1 := by
          have h2 : i < 2 := hi2
          omega
        rcases hi with h | h <;> subst h <;> decide)
      0 (by decide) (by decide)⟩

/-- Witness of C8: the scenario of the specification with Jacobian `J(k) = k`; slot 0 of
atom 0 holds atom 1 and is its `axis_0`. -/
theorem axis_override_witness :
    resolve (ProdForceOp.construct 1 0 1) (scenario_inputs (fun k => (k : Int)))
        = Except.ok scenario_dims
      ∧ scenario_dims.nframes = 1
      ∧ (0 : Int) = axis_0_of (ProdForceOp.construct 1 0 1)
          (scenario_inputs (fun k => (k : Int))) scenario_dims 0
      ∧ (neighbor_term (ProdForceOp.construct 1 0 1) (scenario_inputs (fun k => (k : Int)))
            scenario_dims (frame_iters scenario_dims 0) 0
            (axis_0_of (ProdForceOp.construct 1 0 1) (scenario_inputs (fun k => (k : Int)))
              scenario_dims 0)
            (axis_1_of (ProdForceOp.construct 1 0 1) (scenario_inputs (fun k => (k : Int)))
              scenario_dims 0)
            0 ⟨fun _ => 7, []⟩).force
            (3 * nlist_at (scenario_inputs (fun k => (k : Int))) scenario_dims 0 0 + 0)
          = (⟨fun _ => 7, []⟩ : ForceBuf Int).force
              (3 * nlist_at (scenario_inputs (fun k => (k : Int))) scenario_dims 0 0 + 0)
            - ∑ a ∈ Finset.Ico 0 scenario_dims.ndescrpt,
                g_at (scenario_inputs (fun k => (k : Int))) scenario_dims 0 a
                  * J_at (scenario_inputs (fun k => (k : Int))) scenario_dims 0 a 1 0 :=
  ⟨rfl, rfl, rfl,
    ((@axis_override Int _).1 1 0 1 (scenario_inputs (fun k => (k : Int))) scenario_dims
      rfl rfl 0 0 0 ⟨fun _ => 7, []⟩ (by decide) (by decide) (by decide) (by decide)
      (by decide) (by decide) (by decide) (by decide)).1 rfl⟩

/-- C2, evaluation at the failing input.  On `two_frame_inputs` (`nframes = 2`, `nloc = 1`,
`nall = 2`) with the buffer initially 7 everywhere the call is accepted with output shape
`[2, 6]`; the force of atom 0 of frame 1, which is `-13` when row 1 is run as a single frame,
is found at flat index `1*3*nloc + 0 = 3`, inside row 0, and the entry at flat index
`1*3*nall + 0 = 6` of row 1 still holds the initial 7. -/
theorem multi_frame_layout_failing_input :
    Compute (ProdForceOp.construct 0 0 1) two_frame_inputs (fun _ => 7)
        = Except.ok (two_frame_output (fun _ => 7))
      ∧ (two_frame_output (fun _ => 7)).shape = [2, 3 * 2]
      ∧ Compute (ProdForceOp.construct 0 0 1) (frame_row two_frame_inputs 1) (fun _ => 7)
          = Except.ok (row_one_output (fun _ => 7))
      ∧ (row_one_output (fun _ => 7)).flat (3 * 0 + 0) = -13
      ∧ (two_frame_output (fun _ => 7)).flat (1 * 3 * 2 + 3 * 0 + 0) = 7
      ∧ (two_frame_output (fun _ => 7)).flat (1 * 3 * 1 + 3 * 0 + 0) = -13 :=
  ⟨rfl, rfl, rfl, by decide, by decide, by decide⟩

/-- C5, evaluation at the failing input.  On `ghost_inputs` (`nframes = 1`, `nloc = 1`,
`nall = 2`) two accepted runs on equal inputs, one from a buffer initially 0 and one from a
buffer initially 7, return arrays of shape `[1, 6]` that agree on the local slot and differ at
flat index 3, the first entry of the ghost slot. -/
theorem determinism_failing_input :
    Compute (ProdForceOp.construct 0 0 1) ghost_inputs (fun _ => 0)
        = Except.ok (ghost_output (fun _ => 0))
      ∧ Compute (ProdForceOp.construct 0 0 1) ghost_inputs (fun _ => 7)
          = Except.ok (ghost_output (fun _ => 7))
      ∧ (ghost_output (fun _ => 0)).shape = [1, 3 * 2]
      ∧ (ghost_output (fun _ => 0)).flat 0 = (ghost_output (fun _ => 7)).flat 0
      ∧ (ghost_output (fun _ => 0)).flat 3 = 0
      ∧ (ghost_output (fun _ => 7)).flat 3 = 7 :=
  ⟨rfl, rfl, rfl, by decide, by decide, by decide⟩

/-- C6, evaluation at the failing input.  On `boundary_inputs` (accepted, `nframes = 2`,
`nloc = 1`, `nall = 2`, every neighbor entry in `[0, nall - 1]`) the neighbor term of frame 0
and the zeroing loop of frame 1 both write the flat indices 3, 4 and 5. -/
theorem frame_disjointness_failing_input :
    resolve (ProdForceOp.construct 1 0 1) boundary_inputs = Except.ok boundary_dims
      ∧ (∀ k, 0 ≤ k → k < 2 → 0 ≤ boundary_inputs.nlist.flat k
          ∧ boundary_inputs.nlist.flat k ≤ boundary_dims.nall - 1)
      ∧ (3 ∈ frame_writes (ProdForceOp.construct 1 0 1) boundary_inputs boundary_dims 0
          ∧ 3 ∈ frame_writes (ProdForceOp.construct 1 0 1) boundary_inputs boundary_dims 1)
      ∧ (4 ∈ frame_writes (ProdForceOp.construct 1 0 1) boundary_inputs boundary_dims 0
          ∧ 4 ∈ frame_writes (ProdForceOp.construct 1 0 1) boundary_inputs boundary_dims 1)
      ∧ (5 ∈ frame_writes (ProdForceOp.construct 1 0 1) boundary_inputs boundary_dims 0
          ∧ 5 ∈ frame_writes (ProdForceOp.construct 1 0 1) boundary_inputs boundary_dims 1) := by
  refine ⟨rfl, ?_, by decide, by decide, by decide⟩
  intro k h0 h2
  have hk : k = 0 ∨ k = 1 := by omega
  rcases hk with h | h <;> subst h <;> decide


/-! ## Fold rule, axis resolution -/

theorem accum3_delta_outside (net_deriv in_deriv : Int → R) (fo ni jo p : Int)
    (hp : ¬ (fo ≤ p ∧ p < fo + 3)) :
    accum3_delta net_deriv in_deriv fo ni jo p = 0 := by
  unfold accum3_delta
  have h0 : ¬ p = fo + 0 := by omega
  have h1 : ¬ p = fo + 1 := by omega
  have h2 : ¬ p = fo + 2 := by omega
  rw [if_neg h0, if_neg h1, if_neg h2]
  simp

/-- A neighbor slot subtracts nothing outside the three entries of its target slot. -/
theorem neighbor_delta_outside (op : ProdForceOp) (inp : Inputs R) (dm : Dims) (it : Iters)
    (i axis_0 axis_1 jj p : Int)
    (hp : ¬ (it.force_iter + target_slot inp.nlist.flat dm it i jj * 3 ≤ p
      ∧ p < it.force_iter + target_slot inp.nlist.flat dm it i jj * 3 + 3)) :
    neighbor_delta op inp dm it i axis_0 axis_1 jj p = 0 := by
  unfold neighbor_delta
  split_ifs
  · rfl
  · exact Finset.sum_eq_zero (fun aa _ => accum3_delta_outside _ _ _ _ _ _ hp)

theorem target_slot_cases (nlist : Int → Int) (dm : Dims) (it : Iters) (i jj : Int)
    (hn : 1 ≤ dm.nloc) :
    (nlist (it.nlist_iter + i * dm.nnei + jj) ≤ dm.nloc →
        target_slot nlist dm it i jj = nlist (it.nlist_iter + i * dm.nnei + jj))
      ∧ (dm.nloc < nlist (it.nlist_iter + i * dm.nnei + jj) →
        target_slot nlist dm it i jj = nlist (it.nlist_iter + i * dm.nnei + jj) % dm.nloc
          ∧ 0 ≤ target_slot nlist dm it i jj ∧ target_slot nlist dm it i jj < dm.nloc) := by
  unfold target_slot
  constructor
  · intro h
    rw [if_neg (by omega)]
  · intro h
    rw [if_pos (by omega), Int.tmod_eq_emod (by omega) (by omega)]
    exact ⟨rfl, Int.emod_nonneg _ (by omega), Int.emod_lt_of_pos _ (by omega)⟩

/-- C11 (fold rule and its boundary).  For every `nloc ≥ 1` and every neighbor entry `j`
(slot `jj` of atom `i`): if `j < 0` the slot contributes nothing; if `0 ≤ j ≤ nloc` the
contribution is subtracted into force slot `j` unchanged; if `j > nloc` it is subtracted into
slot `j mod nloc`, which lies in `[0, nloc)`.  An entry equal to `nloc` is not remapped and
lands in slot `nloc`, an entry equal to `2*nloc` lands in slot 0; the target slot is always
in `[0, nloc]` and is `< nloc` unless the entry equals `nloc`. -/
theorem fold_rule_boundary (op : ProdForceOp) (inp : Inputs R) (dm : Dims) (it : Iters)
    (i axis_0 axis_1 jj j : Int) (hn : 1 ≤ dm.nloc)
    (hj : inp.nlist.flat (it.nlist_iter + i * dm.nnei + jj) = j) :
    (j < 0 → ∀ m, neighbor_term op inp dm it i axis_0 axis_1 jj m = m)
      ∧ (0 ≤ j → j ≤ dm.nloc → target_slot inp.nlist.flat dm it i jj = j)
      ∧ (dm.nloc < j → target_slot inp.nlist.flat dm it i jj = j % dm.nloc
          ∧ 0 ≤ j % dm.nloc ∧ j % dm.nloc < dm.nloc)
      ∧ (0 ≤ j → ∀ (m : ForceBuf R) (p : Int),
          ¬ (it.force_iter + target_slot inp.nlist.flat dm it i jj * 3 ≤ p
            ∧ p < it.force_iter + target_slot inp.nlist.flat dm it i jj * 3 + 3) →
          (neighbor_term op inp dm it i axis_0 axis_1 jj m).force p = m.force p)
      ∧ (0 ≤ j → ∀ (m : ForceBuf R) (d : Int), 0 ≤ d → d < 3 →
          (neighbor_term op inp dm it i axis_0 axis_1 jj m).force
              (it.force_iter + target_slot inp.nlist.flat dm it i jj * 3 + d)
            = m.force (it.force_iter + target_slot inp.nlist.flat dm it i jj * 3 + d)
              - ∑ aa ∈ used_range op dm axis_0 axis_1 jj,
                  inp.net_deriv.flat (it.net_iter + i * dm.ndescrpt + aa)
                    * inp.in_deriv.flat (it.in_iter + i * dm.ndescrpt * 12 + aa * 12
                        + used_offset axis_0 axis_1 jj + d))
      ∧ (j = dm.nloc → target_slot inp.nlist.flat dm it i jj = dm.nloc)
      ∧ (j = 2 * dm.nloc → target_slot inp.nlist.flat dm it i jj = 0)
      ∧ (0 ≤ j → 0 ≤ target_slot inp.nlist.flat dm it i jj
          ∧ target_slot inp.nlist.flat dm it i jj ≤ dm.nloc
          ∧ (target_slot inp.nlist.flat dm it i jj < dm.nloc ∨ j = dm.nloc)) := by
  obtain ⟨hle, hgt⟩ := target_slot_cases inp.nlist.flat dm it i jj hn
  rw [hj] at hle hgt
  refine ⟨?_, ?_, ?_, ?_, ?_, ?_, ?_, ?_⟩
  · intro hneg m
    unfold neighbor_term
    rw [hle (by omega), if_pos hneg]
  · intro _ h
    exact hle h
  · intro h
    obtain ⟨h1, h2, h3⟩ := hgt h
    rw [h1] at h2 h3
    exact ⟨h1, h2, h3⟩
  · intro _ m p hp
    rw [neighbor_term_subtracts op inp dm it i axis_0 axis_1 jj m p,
      neighbor_delta_outside op inp dm it i axis_0 axis_1 jj p hp, sub_zero]
  · intro h0 m d hd0 hd3
    have htgt : 0 ≤ target_slot inp.nlist.flat dm it i jj := by
      rcases le_or_lt j dm.nloc with h | h
      · rw [hle h]; exact h0
      · exact (hgt h).2.1
    rw [neighbor_term_subtracts op inp dm it i axis_0 axis_1 jj m,
      neighbor_delta_local op inp dm it i axis_0 axis_1 jj _ d hd0 hd3, if_pos ⟨htgt, rfl⟩]
  · intro h
    rw [hle (by omega), h]
  · intro h
    have h2 : dm.nloc < j := by omega
    rw [(hgt h2).1, h]
    exact Int.mul_emod_left 2 dm.nloc
  · intro h0
    rcases le_or_lt j dm.nloc with h | h
    · rw [hle h]
      exact ⟨h0, h, by omega⟩
    · obtain ⟨-, h2, h3⟩ := hgt h
      exact ⟨h2, by omega, Or.inl h3⟩

/-- Witness of C11: in frame 0 of `boundary_inputs` (`nloc = 1`) the only neighbor entry is
`1 = nloc`; it is not remapped and its target is slot 1. -/
theorem fold_rule_boundary_witness :
    1 ≤ boundary_dims.nloc
      ∧ boundary_inputs.nlist.flat
          ((frame_iters boundary_dims 0).nlist_iter + 0 * boundary_dims.nnei + 0) = 1
      ∧ ((1 : Int) = boundary_dims.nloc →
          target_slot boundary_inputs.nlist.flat boundary_dims (frame_iters boundary_dims 0) 0 0
            = boundary_dims.nloc) :=
  ⟨by decide, rfl,
    (fold_rule_boundary (ProdForceOp.construct 1 0 1) boundary_inputs boundary_dims
      (frame_iters boundary_dims 0) 0 0 0 0 1 (by decide) rfl).2.2.2.2.2.1⟩

/-- C14 (axis-slot resolution).  For every local atom `i` with axis record
`(type0, id0, type1, id1)` read from positions `4*i+0 .. 4*i+3` of its frame's axis
descriptor, the resolved `axis_0` is `id0 + n_a_sel` if `type0 = 1` and `id0` for every other
type value, and the resolved `axis_1` is `id1 + n_a_sel` if `type1 = 1` and `id1` otherwise;
the result does not depend on `n_a_shift = n_a_sel*4`. -/
theorem axis_slot_resolution (n_a_sel n_r_sel num_threads : Int) (axis : Int → Int)
    (dm : Dims) (kk i : Int) :
    set_axes (ProdForceOp.construct n_a_sel n_r_sel num_threads) axis (frame_iters dm kk) i
        = (if axis (kk * dm.nloc * 4 + (4 * i + 0)) = 1
            then axis (kk * dm.nloc * 4 + (4 * i + 1)) + n_a_sel
            else axis (kk * dm.nloc * 4 + (4 * i + 1)),
           if axis (kk * dm.nloc * 4 + (4 * i + 2)) = 1
            then axis (kk * dm.nloc * 4 + (4 * i + 3)) + n_a_sel
            else axis (kk * dm.nloc * 4 + (4 * i + 3)))
      ∧ ∀ shift : Int,
          set_axes ⟨n_r_sel, n_a_sel, shift, num_threads⟩ axis (frame_iters dm kk) i
            = set_axes (ProdForceOp.construct n_a_sel n_r_sel num_threads) axis
                (frame_iters dm kk) i := by
  constructor
  · unfold set_axes frame_iters ProdForceOp.construct
    have e0 : kk * dm.nloc * 4 + i * 4 + 0 = kk * dm.nloc * 4 + (4 * i + 0) := by ring
    have e1 : kk * dm.nloc * 4 + i * 4 + 1 = kk * dm.nloc * 4 + (4 * i + 1) := by ring
    have e2 : kk * dm.nloc * 4 + i * 4 + 2 = kk * dm.nloc * 4 + (4 * i + 2) := by ring
    have e3 : kk * dm.nloc * 4 + i * 4 + 3 = kk * dm.nloc * 4 + (4 * i + 3) := by ring
    simp only [e0, e1, e2, e3]
  · intro shift
    rfl

/-! ## Ghost slots -/

/-- A frame subtracts nothing outside the slots `0 .. nloc` of its range. -/
theorem frame_delta_outside (op : ProdForceOp) (inp : Inputs R) (dm : Dims) (it : Iters)
    (p : Int) (hp : p < it.force_iter ∨ it.force_iter + (dm.nloc + 1) * 3 ≤ p) :
    frame_delta op inp dm it p = 0 := by
  unfold frame_delta
  refine Finset.sum_eq_zero (fun i hi => ?_)
  rw [Finset.mem_Ico] at hi
  unfold atom_delta
  have hc : center_delta inp dm it i p = 0 := by
    unfold center_delta
    exact Finset.sum_eq_zero (fun aa _ => accum3_delta_outside _ _ _ _ _ _ (by omega))
  rw [hc, zero_add]
  refine Finset.sum_eq_zero (fun jj _ => ?_)
  by_cases hneg : target_slot inp.nlist.flat dm it i jj < 0
  · unfold neighbor_delta
    rw [if_pos hneg]
  · obtain ⟨hle, hgt⟩ := target_slot_cases inp.nlist.flat dm it i jj (by omega)
    have hub : target_slot inp.nlist.flat dm it i jj ≤ dm.nloc := by
      rcases le_or_lt (inp.nlist.flat (it.nlist_iter + i * dm.nnei + jj)) dm.nloc with h | h
      · rw [hle h]; exact h
      · exact le_of_lt (hgt h).2.2
    exact neighbor_delta_outside op inp dm it i _ _ jj p (by omega)

/-- The amount a single frame subtracts from the entry `(nloc, d)` of the first ghost slot. -/
theorem frame_delta_boundary_slot (op : ProdForceOp) (hs : op.n_a_shift = op.n_a_sel * 4)
    (inp : Inputs R) (dm : Dims) (d : Int) (hd0 : 0 ≤ d) (hd3 : d < 3) :
    frame_delta op inp dm (frame_iters dm 0) (3 * dm.nloc + d)
      = ∑ i ∈ Finset.Ico 0 dm.nloc, ∑ jj ∈ Finset.Ico 0 dm.nnei,
          if nlist_at inp dm i jj = dm.nloc then
            ∑ a ∈ slot_R op inp dm i jj,
              g_at inp dm i a * J_at inp dm i a (slot_B op inp dm i jj) d
          else 0 := by
  have hp : 3 * dm.nloc + d = (frame_iters dm 0).force_iter + dm.nloc * 3 + d := by
    simp only [frame_iters, zero_mul, zero_add]
    ring
  unfold frame_delta
  refine Finset.sum_congr rfl (fun i hi => ?_)
  rw [Finset.mem_Ico] at hi
  unfold atom_delta
  have hc : center_delta inp dm (frame_iters dm 0) i (3 * dm.nloc + d) = 0 := by
    unfold center_delta
    refine Finset.sum_eq_zero (fun aa _ => accum3_delta_outside _ _ _ _ _ _ ?_)
    simp only [frame_iters, zero_mul, zero_add]
    omega
  rw [hc, zero_add]
  refine Finset.sum_congr rfl (fun jj _ => ?_)
  rw [hp, neighbor_delta_local op inp dm (frame_iters dm 0) i _ _ jj dm.nloc d hd0 hd3,
    target_slot_eq_fold inp dm i jj (by omega), used_range_eq op hs, used_offset_eq]
  have hiff : (0 ≤ fold dm.nloc (nlist_at inp dm i jj)
      ∧ fold dm.nloc (nlist_at inp dm i jj) = dm.nloc) ↔ nlist_at inp dm i jj = dm.nloc := by
    unfold fold
    by_cases h : nlist_at inp dm i jj > dm.nloc
    · rw [if_pos h]
      have := Int.emod_lt_of_pos (nlist_at inp dm i jj) (show 0 < dm.nloc by omega)
      constructor <;> intro h' <;> omega
    · rw [if_neg h]
      constructor <;> intro h' <;> omega
  by_cases hc' : nlist_at inp dm i jj = dm.nloc
  · rw [if_pos hc', if_pos (hiff.2 hc')]
    refine Finset.sum_congr rfl (fun a _ => ?_)
    unfold g_at J_at
    simp only [frame_iters, zero_mul, zero_add]
  · rw [if_neg hc', if_neg (fun h => hc' (hiff.1 h))]

/-- The buffer returned by an accepted single-frame call: the zeroed buffer minus the amounts
of the frame. -/
theorem accepted_single_frame_buffer (op : ProdForceOp) (inp : Inputs R) (init : Int → R)
    (dm : Dims) (out : Output R)
    (hres : resolve op inp = Except.ok dm) (hacc : Compute op inp init = Except.ok out)
    (hframes : dm.nframes = 1) (p : Int) :
    out.flat p = (zero_local dm (frame_iters dm 0) ⟨init, []⟩).force p
      - frame_delta op inp dm (frame_iters dm 0) p := by
  obtain ⟨dm', hres', rfl⟩ := (Compute_eq_ok_iff _ inp init out).1 hacc
  have hdm : dm' = dm := by
    rw [hres] at hres'
    exact (Except.ok.inj hres').symm
  subst hdm
  show (kernel _ inp dm' ⟨init, []⟩).force p = _
  rw [kernel_single_frame _ inp dm' hframes, frame_force, zero_local_force]

/-- C16 (ghost slots are left untouched).  For every accepted single-frame call with
`nall > nloc`, the output buffer being explicit state with arbitrary initial contents: the
returned buffer is the buffer after the zeroing loop minus the accumulated amounts; the
zeroing loop sets every entry of the local slots `0..nloc-1` to 0 and leaves every other
entry at its initial content; every entry of a ghost slot with index in `(nloc, nall)` keeps
its initial content; and an entry of slot `nloc` is its initial content minus the
contributions of the neighbor entries equal to `nloc` exactly, hence its initial content when
there is no such entry. -/
theorem ghost_slots_untouched (n_a_sel n_r_sel num_threads : Int)
    (inp : Inputs R) (init : Int → R) (dm : Dims) (out : Output R)
    (hres : resolve (ProdForceOp.construct n_a_sel n_r_sel num_threads) inp = Except.ok dm)
    (hacc : Compute (ProdForceOp.construct n_a_sel n_r_sel num_threads) inp init = Except.ok out)
    (hframes : dm.nframes = 1) (_hnall : dm.nloc < dm.nall) :
    (∀ p, out.flat p = (zero_local dm (frame_iters dm 0) ⟨init, []⟩).force p
        - frame_delta (ProdForceOp.construct n_a_sel n_r_sel num_threads) inp dm
            (frame_iters dm 0) p)
      ∧ (∀ t d, 0 ≤ t → t < dm.nloc → 0 ≤ d → d < 3 →
          (zero_local dm (frame_iters dm 0) ⟨init, []⟩).force (3 * t + d) = 0)
      ∧ (∀ p, ¬ (0 ≤ p ∧ p < 3 * dm.nloc) →
          (zero_local dm (frame_iters dm 0) ⟨init, []⟩).force p = init p)
      ∧ (∀ s d, dm.nloc < s → s < dm.nall → 0 ≤ d → d < 3 →
          out.flat (3 * s + d) = init (3 * s + d))
      ∧ (∀ d, 0 ≤ d → d < 3 →
          out.flat (3 * dm.nloc + d) = init (3 * dm.nloc + d)
            - ∑ i ∈ Finset.Ico 0 dm.nloc, ∑ jj ∈ Finset.Ico 0 dm.nnei,
                if nlist_at inp dm i jj = dm.nloc then
                  ∑ a ∈ slot_R (ProdForceOp.construct n_a_sel n_r_sel num_threads) inp dm i jj,
                    g_at inp dm i a * J_at inp dm i a
                      (slot_B (ProdForceOp.construct n_a_sel n_r_sel num_threads) inp dm i jj) d
                else 0)
      ∧ ((∀ i jj, 0 ≤ i → i < dm.nloc → 0 ≤ jj → jj < dm.nnei →
            nlist_at inp dm i jj ≠ dm.nloc) →
          ∀ d, 0 ≤ d → d < 3 → out.flat (3 * dm.nloc + d) = init (3 * dm.nloc + d)) := by
  have hbuf := accepted_single_frame_buffer _ inp init dm out hres hacc hframes
  have hfi : (frame_iters dm 0).force_iter = 0 := by
    simp only [frame_iters, zero_mul]
  have hzero : ∀ p, (zero_local dm (frame_iters dm 0) ⟨init, []⟩).force p
      = if 0 ≤ p ∧ p < 3 * dm.nloc then 0 else init p := by
    intro p
    rw [zero_local_force, hfi]
    by_cases h : 0 ≤ p ∧ p < 3 * dm.nloc
    · rw [if_pos h, if_pos (by omega)]
    · rw [if_neg h, if_neg (by omega)]
  have hslot : ∀ d, 0 ≤ d → d < 3 →
      out.flat (3 * dm.nloc + d) = init (3 * dm.nloc + d)
        - ∑ i ∈ Finset.Ico 0 dm.nloc, ∑ jj ∈ Finset.Ico 0 dm.nnei,
            if nlist_at inp dm i jj = dm.nloc then
              ∑ a ∈ slot_R (ProdForceOp.construct n_a_sel n_r_sel num_threads) inp dm i jj,
                g_at inp dm i a * J_at inp dm i a
                  (slot_B (ProdForceOp.construct n_a_sel n_r_sel num_threads) inp dm i jj) d
            else 0 := by
    intro d hd0 hd3
    rw [hbuf, hzero, if_neg (by omega), frame_delta_boundary_slot _ rfl inp dm d hd0 hd3]
  refine ⟨hbuf, ?_, ?_, ?_, hslot, ?_⟩
  · intro t d ht0 ht hd0 hd3
    rw [hzero, if_pos (by omega)]
  · intro p hp
    rw [hzero, if_neg hp]
  · intro s d hs _ hd0 hd3
    rw [hbuf, hzero, if_neg (by omega),
      frame_delta_outside _ inp dm _ _ (Or.inr (by rw [hfi]; omega)), sub_zero]
  · intro hno d hd0 hd3
    rw [hslot d hd0 hd3]
    have hz : (∑ i ∈ Finset.Ico 0 dm.nloc, ∑ jj ∈ Finset.Ico 0 dm.nnei,
        if nlist_at inp dm i jj = dm.nloc then
          ∑ a ∈ slot_R (ProdForceOp.construct n_a_sel n_r_sel num_threads) inp dm i jj,
            g_at inp dm i a * J_at inp dm i a
              (slot_B (ProdForceOp.construct n_a_sel n_r_sel num_threads) inp dm i jj) d
        else 0) = 0 := by
      refine Finset.sum_eq_zero (fun i hi => Finset.sum_eq_zero (fun jj hjj => ?_))
      rw [Finset.mem_Ico] at hi hjj
      rw [if_neg (hno i jj hi.1 hi.2 hjj.1 hjj.2)]
    rw [hz, sub_zero]

/-- Witness of C16: on `far_ghost_inputs` (`nloc = 1`, `nall = 3`, buffer initially 7) the
entry `(2, 0)` of the second ghost slot keeps its initial content. -/
theorem ghost_slots_untouched_witness :
    resolve (ProdForceOp.construct 1 0 1) far_ghost_inputs = Except.ok far_ghost_dims
      ∧ Compute (ProdForceOp.construct 1 0 1) far_ghost_inputs (fun _ => 7)
          = Except.ok far_ghost_output
      ∧ far_ghost_dims.nframes = 1 ∧ far_ghost_dims.nloc < far_ghost_dims.nall
      ∧ far_ghost_output.flat (3 * 2 + 0) = (fun _ => (7 : Int)) (3 * 2 + 0) :=
  ⟨rfl, rfl, rfl, by decide,
    (ghost_slots_untouched 1 0 1 far_ghost_inputs (fun _ => 7) far_ghost_dims far_ghost_output
      rfl rfl rfl (by decide)).2.2.2.1 2 0 (by decide) (by decide) (by decide) (by decide)⟩

/-! ## Linearity in the descriptor gradient -/

theorem reference_force_linear (op : ProdForceOp) (inp : Inputs R) (dm : Dims)
    (g1 g2 : Int → R) (c : R) (t d : Int) :
    reference_force op (with_gradient inp (fun k => c * g1 k + g2 k)) dm t d
      = c * reference_force op (with_gradient inp g1) dm t d
        + reference_force op (with_gradient inp g2) dm t d := by
  have key : ∀ (s : Finset Int) (i b : Int),
      (∑ a ∈ s, (c * g1 (i * dm.ndescrpt + a) + g2 (i * dm.ndescrpt + a))
          * J_at inp dm i a b d)
        = c * (∑ a ∈ s, g1 (i * dm.ndescrpt + a) * J_at inp dm i a b d)
          + ∑ a ∈ s, g2 (i * dm.ndescrpt + a) * J_at inp dm i a b d := by
    intro s i b
    rw [Finset.mul_sum, ← Finset.sum_add_distrib]
    refine Finset.sum_congr rfl (fun a _ => ?_)
    ring
  have hite : ∀ (P : Prop) [Decidable P] (x y : R),
      (if P then c * x + y else 0) = c * (if P then x else 0) + (if P then y else 0) := by
    intro P _ x y
    split_ifs <;> simp
  show -(∑ a ∈ Finset.Ico 0 dm.ndescrpt,
        (c * g1 (t * dm.ndescrpt + a) + g2 (t * dm.ndescrpt + a)) * J_at inp dm t a 0 d)
      - ∑ i ∈ Finset.Ico 0 dm.nloc, ∑ jj ∈ Finset.Ico 0 dm.nnei,
          (if 0 ≤ nlist_at inp dm i jj ∧ fold dm.nloc (nlist_at inp dm i jj) = t then
            ∑ a ∈ slot_R op inp dm i jj,
              (c * g1 (i * dm.ndescrpt + a) + g2 (i * dm.ndescrpt + a))
                * J_at inp dm i a (slot_B op inp dm i jj) d
          else 0)
    = c * (-(∑ a ∈ Finset.Ico 0 dm.ndescrpt,
          g1 (t * dm.ndescrpt + a) * J_at inp dm t a 0 d)
        - ∑ i ∈ Finset.Ico 0 dm.nloc, ∑ jj ∈ Finset.Ico 0 dm.nnei,
            (if 0 ≤ nlist_at inp dm i jj ∧ fold dm.nloc (nlist_at inp dm i jj) = t then
              ∑ a ∈ slot_R op inp dm i jj,
                g1 (i * dm.ndescrpt + a) * J_at inp dm i a (slot_B op inp dm i jj) d
            else 0))
      + (-(∑ a ∈ Finset.Ico 0 dm.ndescrpt,
          g2 (t * dm.ndescrpt + a) * J_at inp dm t a 0 d)
        - ∑ i ∈ Finset.Ico 0 dm.nloc, ∑ jj ∈ Finset.Ico 0 dm.nnei,
            (if 0 ≤ nlist_at inp dm i jj ∧ fold dm.nloc (nlist_at inp dm i jj) = t then
              ∑ a ∈ slot_R op inp dm i jj,
                g2 (i * dm.ndescrpt + a) * J_at inp dm i a (slot_B op inp dm i jj) d
            else 0))
  simp only [key, hite, Finset.sum_add_distrib, ← Finset.mul_sum]
  ring

/-- C20 (linearity in the descriptor gradient).  For every fixed Jacobian, neighbor list
(entries negative or in `[0, nloc)`), axis descriptor and configuration of an accepted
single-frame call, over exact arithmetic, the forces on the local slots are linear in the
descriptor gradient: `F(c*g1 + g2) = c*F(g1) + F(g2)` for all gradients `g1`, `g2` and
scalars `c`, whatever the initial buffers of the three runs; a zero gradient yields zero
force on every local atom. -/
theorem gradient_linearity (n_a_sel n_r_sel num_threads : Int) (inp : Inputs R) (dm : Dims)
    (hres : resolve (ProdForceOp.construct n_a_sel n_r_sel num_threads) inp = Except.ok dm)
    (hframes : dm.nframes = 1)
    (_hnl : ∀ i jj, 0 ≤ i → i < dm.nloc → 0 ≤ jj → jj < dm.nnei →
      nlist_at inp dm i jj < 0 ∨ (0 ≤ nlist_at inp dm i jj ∧ nlist_at inp dm i jj < dm.nloc))
    (g1 g2 : Int → R) (c : R) (init1 init2 init3 : Int → R) (out1 out2 out3 : Output R)
    (h1 : Compute (ProdForceOp.construct n_a_sel n_r_sel num_threads) (with_gradient inp g1)
      init1 = Except.ok out1)
    (h2 : Compute (ProdForceOp.construct n_a_sel n_r_sel num_threads) (with_gradient inp g2)
      init2 = Except.ok out2)
    (h3 : Compute (ProdForceOp.construct n_a_sel n_r_sel num_threads)
      (with_gradient inp (fun k => c * g1 k + g2 k)) init3 = Except.ok out3)
    (t d : Int) (ht0 : 0 ≤ t) (ht : t < dm.nloc) (hd0 : 0 ≤ d) (hd3 : d < 3) :
    out3.flat (3 * t + d) = c * out1.flat (3 * t + d) + out2.flat (3 * t + d)
      ∧ ∀ (init0 : Int → R) (out0 : Output R),
          Compute (ProdForceOp.construct n_a_sel n_r_sel num_threads)
            (with_gradient inp (fun _ => 0)) init0 = Except.ok out0 →
          out0.flat (3 * t + d) = 0 := by
  have hr : ∀ g : Int → R,
      resolve (ProdForceOp.construct n_a_sel n_r_sel num_threads) (with_gradient inp g)
        = Except.ok dm := fun g => hres
  constructor
  · rw [accepted_single_frame_force _ rfl _ init1 dm out1 (hr g1) h1 hframes t d ht0 ht hd0 hd3,
      accepted_single_frame_force _ rfl _ init2 dm out2 (hr g2) h2 hframes t d ht0 ht hd0 hd3,
      accepted_single_frame_force _ rfl _ init3 dm out3 (hr _) h3 hframes t d ht0 ht hd0 hd3]
    exact reference_force_linear _ inp dm g1 g2 c t d
  · intro init0 out0 h0
    rw [accepted_single_frame_force _ rfl _ init0 dm out0 (hr _) h0 hframes t d ht0 ht hd0 hd3]
    have hlin := reference_force_linear (ProdForceOp.construct n_a_sel n_r_sel num_threads)
      inp dm (fun _ => 0) (fun _ => 0) 1 t d
    simp only [mul_zero, add_zero, one_mul] at hlin
    exact self_eq_add_right.1 hlin

/-! ## Axis tie-break -/

theorem accum3_delta_congr (net_deriv f f' : Int → R) (fo ni jo p : Int)
    (h : ∀ d, 0 ≤ d → d < 3 → f' (jo + d) = f (jo + d)) :
    accum3_delta net_deriv f' fo ni jo p = accum3_delta net_deriv f fo ni jo p := by
  unfold accum3_delta
  rw [h 0 (by decide) (by decide), h 1 (by decide) (by decide), h 2 (by decide) (by decide)]

theorem row_index_unique (nd i i' a aa : Int) (ha0 : 0 ≤ a) (ha : a < nd)
    (haa0 : 0 ≤ aa) (haa : aa < nd) (h : i * nd + a = i' * nd + aa) : i = i' := by
  have hnd : nd ≠ 0 := by omega
  have h1 : (a + i * nd) / nd = i := by
    rw [Int.add_mul_ediv_right _ _ hnd, Int.ediv_eq_zero_of_lt ha0 ha, zero_add]
  have h2 : (aa + i' * nd) / nd = i' := by
    rw [Int.add_mul_ediv_right _ _ hnd, Int.ediv_eq_zero_of_lt haa0 haa, zero_add]
  have h3 : a + i * nd = aa + i' * nd := by omega
  rw [← h1, ← h2, h3]

/-- When the two resolved axes of atom `i` coincide, the amounts of a single frame do not
depend on the entries `J[i,a,2,d]` of atom `i`. -/
theorem frame_delta_congr_jacobian (op : ProdForceOp) (inp : Inputs R) (dm : Dims) (i : Int)
    (htie : axis_0_of op inp dm i = axis_1_of op inp dm i) (jac : Int → R)
    (hdiff : ∀ k, (¬ ∃ a d, 0 ≤ a ∧ a < dm.ndescrpt ∧ 0 ≤ d ∧ d < 3
        ∧ k = i * dm.ndescrpt * 12 + a * 12 + 3 * 2 + d) → jac k = inp.in_deriv.flat k)
    (p : Int) :
    frame_delta op (with_jacobian inp jac) dm (frame_iters dm 0) p
      = frame_delta op inp dm (frame_iters dm 0) p := by
  have hin : (frame_iters dm 0).in_iter = 0 := by
    simp only [frame_iters, zero_mul]
  unfold frame_delta
  refine Finset.sum_congr rfl (fun i' _ => ?_)
  unfold atom_delta
  congr 1
  · unfold center_delta
    refine Finset.sum_congr rfl (fun aa _ => ?_)
    refine accum3_delta_congr _ _ _ _ _ _ _ (fun d' hd0 hd3 => hdiff _ ?_)
    rintro ⟨a, d, -, -, hd0', hd3', hk⟩
    simp only [hin, zero_add] at hk
    generalize i' * dm.ndescrpt = y at hk
    generalize i * dm.ndescrpt = x at hk
    omega
  · refine Finset.sum_congr rfl (fun jj _ => ?_)
    unfold neighbor_delta
    show (if target_slot inp.nlist.flat dm (frame_iters dm 0) i' jj < 0 then (0 : R)
        else ∑ aa ∈ used_range op dm (set_axes op inp.axis.flat (frame_iters dm 0) i').1
            (set_axes op inp.axis.flat (frame_iters dm 0) i').2 jj,
          accum3_delta inp.net_deriv.flat jac
            ((frame_iters dm 0).force_iter
              + target_slot inp.nlist.flat dm (frame_iters dm 0) i' jj * 3)
            ((frame_iters dm 0).net_iter + i' * dm.ndescrpt + aa)
            ((frame_iters dm 0).in_iter + i' * dm.ndescrpt * 12 + aa * 12
              + used_offset (set_axes op inp.axis.flat (frame_iters dm 0) i').1
                  (set_axes op inp.axis.flat (frame_iters dm 0) i').2 jj) p) = _
    split_ifs with hneg
    · rfl
    · refine Finset.sum_congr rfl (fun aa haa => ?_)
      refine accum3_delta_congr _ _ _ _ _ _ _ (fun d' hd0 hd3 => hdiff _ ?_)
      rintro ⟨a, d, ha0, ha, hd0', hd3', hk⟩
      simp only [hin, zero_add] at hk
      unfold used_offset at hk
      unfold used_range at haa
      by_cases h0 : jj = (set_axes op inp.axis.flat (frame_iters dm 0) i').1
      · rw [if_pos h0] at hk
        generalize i' * dm.ndescrpt = y at hk
        generalize i * dm.ndescrpt = x at hk
        omega
      · rw [if_neg h0] at hk haa
        by_cases h1 : jj = (set_axes op inp.axis.flat (frame_iters dm 0) i').2
        · rw [if_pos h1] at hk haa
          rw [Finset.mem_Ico] at haa
          have hrow : i * dm.ndescrpt + a = i' * dm.ndescrpt + aa := by
            generalize i' * dm.ndescrpt = y at hk ⊢
            generalize i * dm.ndescrpt = x at hk ⊢
            omega
          have hii : i = i' := row_index_unique dm.ndescrpt i i' a aa ha0 ha haa.1 haa.2 hrow
          subst hii
          exact h0 (h1.trans htie.symm)
        · rw [if_neg h1] at hk
          generalize i' * dm.ndescrpt = y at hk
          generalize i * dm.ndescrpt = x at hk
          omega

/-- C15 (axis tie-break).  For every accepted single-frame call and every local atom `i`
whose resolved `axis_0` and `axis_1` are the same slot: that slot is treated as `axis_0`
(its contribution is the full-range sum over Jacobian block 1, offset +3), and Jacobian
block 2 of atom `i` is never used: a run on an input that differs only in entries
`J[i,a,2,d]` (`a` in `[0, ndescrpt)`, offsets +6..+8) returns the same result from the same
initial buffer, and the same forces on the local slots from any initial buffer. -/
theorem axis_tie_break (n_a_sel n_r_sel num_threads : Int) (inp : Inputs R) (init : Int → R)
    (dm : Dims)
    (hres : resolve (ProdForceOp.construct n_a_sel n_r_sel num_threads) inp = Except.ok dm)
    (hframes : dm.nframes = 1) (i : Int) (_hi0 : 0 ≤ i) (_hi : i < dm.nloc)
    (htie : axis_0_of (ProdForceOp.construct n_a_sel n_r_sel num_threads) inp dm i
      = axis_1_of (ProdForceOp.construct n_a_sel n_r_sel num_threads) inp dm i)
    (jac : Int → R)
    (hdiff : ∀ k, (¬ ∃ a d, 0 ≤ a ∧ a < dm.ndescrpt ∧ 0 ≤ d ∧ d < 3
        ∧ k = i * dm.ndescrpt * 12 + a * 12 + 3 * 2 + d) → jac k = inp.in_deriv.flat k) :
    (∀ (m : ForceBuf R) (d : Int), 0 ≤ d → d < 3 →
        0 ≤ nlist_at inp dm i
          (axis_0_of (ProdForceOp.construct n_a_sel n_r_sel num_threads) inp dm i) →
        nlist_at inp dm i
          (axis_0_of (ProdForceOp.construct n_a_sel n_r_sel num_threads) inp dm i) ≤ dm.nloc →
        (neighbor_term (ProdForceOp.construct n_a_sel n_r_sel num_threads) inp dm
            (frame_iters dm 0) i
            (axis_0_of (ProdForceOp.construct n_a_sel n_r_sel num_threads) inp dm i)
            (axis_1_of (ProdForceOp.construct n_a_sel n_r_sel num_threads) inp dm i)
            (axis_0_of (ProdForceOp.construct n_a_sel n_r_sel num_threads) inp dm i) m).force
            (3 * nlist_at inp dm i
              (axis_0_of (ProdForceOp.construct n_a_sel n_r_sel num_threads) inp dm i) + d)
          = m.force (3 * nlist_at inp dm i
              (axis_0_of (ProdForceOp.construct n_a_sel n_r_sel num_threads) inp dm i) + d)
            - ∑ a ∈ Finset.Ico 0 dm.ndescrpt, g_at inp dm i a * J_at inp dm i a 1 d)
      ∧ Compute (ProdForceOp.construct n_a_sel n_r_sel num_threads) (with_jacobian inp jac) init
          = Compute (ProdForceOp.construct n_a_sel n_r_sel num_threads) inp init
      ∧ ∀ (init' : Int → R) (out out' : Output R),
          Compute (ProdForceOp.construct n_a_sel n_r_sel num_threads) inp init
            = Except.ok out →
          Compute (ProdForceOp.construct n_a_sel n_r_sel num_threads) (with_jacobian inp jac)
            init' = Except.ok out' →
          ∀ t d, 0 ≤ t → t < dm.nloc → 0 ≤ d → d < 3 →
            out'.flat (3 * t + d) = out.flat (3 * t + d) := by
  have hres' : resolve (ProdForceOp.construct n_a_sel n_r_sel num_threads)
      (with_jacobian inp jac) = Except.ok dm := hres
  have heq : Compute (ProdForceOp.construct n_a_sel n_r_sel num_threads)
      (with_jacobian inp jac) init
      = Compute (ProdForceOp.construct n_a_sel n_r_sel num_threads) inp init := by
    have hok : Compute (ProdForceOp.construct n_a_sel n_r_sel num_threads) inp init
        = Except.ok ⟨[dm.nframes, 3 * dm.nall],
            (kernel (ProdForceOp.construct n_a_sel n_r_sel num_threads) inp dm
              ⟨init, []⟩).force⟩ :=
      (Compute_eq_ok_iff _ inp init _).2 ⟨dm, hres, rfl⟩
    have hok' : Compute (ProdForceOp.construct n_a_sel n_r_sel num_threads)
        (with_jacobian inp jac) init
        = Except.ok ⟨[dm.nframes, 3 * dm.nall],
            (kernel (ProdForceOp.construct n_a_sel n_r_sel num_threads) (with_jacobian inp jac)
              dm ⟨init, []⟩).force⟩ :=
      (Compute_eq_ok_iff _ _ init _).2 ⟨dm, hres', rfl⟩
    have hf : (kernel (ProdForceOp.construct n_a_sel n_r_sel num_threads)
          (with_jacobian inp jac) dm ⟨init, []⟩).force
        = (kernel (ProdForceOp.construct n_a_sel n_r_sel num_threads) inp dm
            ⟨init, []⟩).force := by
      funext p
      rw [kernel_single_frame _ _ dm hframes, kernel_single_frame _ _ dm hframes, frame_force,
        frame_force, frame_delta_congr_jacobian _ inp dm i htie jac hdiff]
    rw [hok, hok', hf]
  refine ⟨?_, heq, ?_⟩
  · intro m d hd0 hd3 hj0 hj
    have hn : 0 ≤ dm.nloc := by omega
    have htgt : target_slot inp.nlist.flat dm (frame_iters dm 0) i
        (axis_0_of (ProdForceOp.construct n_a_sel n_r_sel num_threads) inp dm i)
        = nlist_at inp dm i
            (axis_0_of (ProdForceOp.construct n_a_sel n_r_sel num_threads) inp dm i) := by
      rw [target_slot_eq_fold inp dm i _ hn]
      unfold fold
      rw [if_neg (by omega)]
    have hp : 3 * nlist_at inp dm i
          (axis_0_of (ProdForceOp.construct n_a_sel n_r_sel num_threads) inp dm i) + d
        = (frame_iters dm 0).force_iter + nlist_at inp dm i
            (axis_0_of (ProdForceOp.construct n_a_sel n_r_sel num_threads) inp dm i) * 3
          + d := by
      simp only [frame_iters, zero_mul, zero_add]
      ring
    rw [neighbor_term_subtracts, hp, neighbor_delta_local _ inp dm (frame_iters dm 0) i _ _ _ _ d
      hd0 hd3, if_pos ⟨by rw [htgt]; exact hj0, htgt⟩]
    unfold used_range used_offset g_at J_at
    simp only [if_true, frame_iters, zero_mul, zero_add]
    norm_num
  · intro init' out out' hout hout' t d ht0 ht hd0 hd3
    have hsame : Compute (ProdForceOp.construct n_a_sel n_r_sel num_threads)
        (with_jacobian inp jac) init = Except.ok out := by
      rw [heq]
      exact hout
    rw [accepted_single_frame_force _ rfl _ init' dm out' hres' hout' hframes t d ht0 ht hd0 hd3,
      ← accepted_single_frame_force _ rfl _ init dm out hres' hsame hframes t d ht0 ht hd0 hd3]

/-- Witness of C15: in the scenario of the specification every axis record is `(0,0,0,0)`,
so both axes of atom 0 resolve to slot 0; replacing block 2 of atom 0 in the Jacobian by
1000 does not change the result. -/
theorem axis_tie_break_witness :
    resolve (ProdForceOp.construct 1 0 1) (scenario_inputs (fun k => (k : Int)))
        = Except.ok scenario_dims
      ∧ scenario_dims.nframes = 1
      ∧ axis_0_of (ProdForceOp.construct 1 0 1) (scenario_inputs (fun k => (k : Int)))
          scenario_dims 0
        = axis_1_of (ProdForceOp.construct 1 0 1) (scenario_inputs (fun k => (k : Int)))
          scenario_dims 0
      ∧ perturbed_jacobian 6 ≠ (scenario_inputs (fun k => (k : Int))).in_deriv.flat 6
      ∧ Compute (ProdForceOp.construct 1 0 1)
          (with_jacobian (scenario_inputs (fun k => (k : Int))) perturbed_jacobian) (fun _ => 7)
        = Compute (ProdForceOp.construct 1 0 1) (scenario_inputs (fun k => (k : Int)))
            (fun _ => 7) :=
  ⟨rfl, rfl, rfl, by decide,
    (axis_tie_break 1 0 1 (scenario_inputs (fun k => (k : Int))) (fun _ => 7) scenario_dims
      rfl rfl 0 (by decide) (by decide) rfl perturbed_jacobian
      (by
        intro k hk
        show perturbed_jacobian k = k
        unfold perturbed_jacobian
        by_cases hc : 0 ≤ k ∧ k < 48 ∧ 6 ≤ k % 12 ∧ k % 12 < 9
        · exfalso
          apply hk
          refine ⟨k / 12, k % 12 - 6, ?_, ?_, ?_, ?_, ?_⟩
          · omega
          · show k / 12 < 4
            omega
          · omega
          · omega
          · show k = 0 * 4 * 12 + k / 12 * 12 + 3 * 2 + (k % 12 - 6)
            omega
        · rw [if_neg hc])).2.1⟩

/-- Witness of C20: the scenario with `g1(k) = k`, `g2 = 1`, `c = 2`, three different initial
buffers, slot `t = 1`, axis `d = 0`. -/
theorem gradient_linearity_witness :
    resolve (ProdForceOp.construct 1 0 1) (scenario_inputs (fun k => (k : Int)))
        = Except.ok scenario_dims
      ∧ scenario_dims.nframes = 1
      ∧ Compute (ProdForceOp.construct 1 0 1)
          (with_gradient (scenario_inputs (fun k => (k : Int))) (fun k => 2 * k + 1))
          (fun _ => 9) = Except.ok (gradient_output (fun k => 2 * k + 1) (fun _ => 9))
      ∧ (gradient_output (fun k => 2 * k + 1) (fun _ => 9)).flat (3 * 1 + 0)
          = 2 * (gradient_output (fun k => k) (fun _ => 7)).flat (3 * 1 + 0)
            + (gradient_output (fun _ => 1) (fun _ => 8)).flat (3 * 1 + 0) :=
  ⟨rfl, rfl, rfl,
    (gradient_linearity 1 0 1 (scenario_inputs (fun k => (k : Int))) scenario_dims rfl rfl
      (by
        intro i jj _ _ _ _
        show (if i * 1 + jj = 0 then (1 : Int) else -1) < 0
          ∨ (0 ≤ (if i * 1 + jj = 0 then (1 : Int) else -1)
            ∧ (if i * 1 + jj = 0 then (1 : Int) else -1) < 2)
        split_ifs
        · exact Or.inr ⟨by decide, by decide⟩
        · exact Or.inl (by decide))
      (fun k => k) (fun _ => 1) 2 (fun _ => 7) (fun _ => 8) (fun _ => 9)
      (gradient_output (fun k => k) (fun _ => 7)) (gradient_output (fun _ => 1) (fun _ => 8))
      (gradient_output (fun k => 2 * k + 1) (fun _ => 9)) rfl rfl rfl
      1 0 (by decide) (by decide) (by decide) (by decide)).1⟩

/-! ## Derived sizes -/

/-- C19, counterexample.  On `ragged_inputs` (`nloc = 2`, descriptor-gradient width 9,
neighbor-list width 3) the validation passes with `ndescrpt = 4` and `nnei = 1`, and neither
width is `nloc` times the derived size. -/
theorem derived_sizes_counterexample :
    resolve (ProdForceOp.construct 1 0 1) ragged_inputs = Except.ok ⟨1, 2, 3, 4, 1⟩
      ∧ ragged_inputs.net_deriv.dim_size 1 ≠ 2 * 4
      ∧ ragged_inputs.nlist.dim_size 1 ≠ 2 * 1 :=
  ⟨rfl, by decide, by decide⟩

/-- C19, amended.  For every call that passes validation with `nloc ≥ 1`: when the quotient
of the descriptor-gradient width by `nloc` is a value of an `int` (below `2^31`), `ndescrpt`
is that truncated quotient, `nloc*ndescrpt ≤ width < nloc*ndescrpt + nloc`, the division is
exact exactly when `nloc` divides the width, and then the frame offset `kk*nloc*ndescrpt` is
the start of row `kk`; likewise for the neighbor-list width, `nnei` and `kk*nloc*nnei`; the
Jacobian and axis widths are always `nloc*ndescrpt*12` and `nloc*4`, so their frame offsets
are row starts. -/
theorem derived_sizes_truncated (op : ProdForceOp) (inp : Inputs R) (dm : Dims)
    (hres : resolve op inp = Except.ok dm) (hn : 1 ≤ dm.nloc) :
    (Int.tdiv (inp.net_deriv.dim_size 1) dm.nloc < 2147483648 →
        dm.ndescrpt = Int.tdiv (inp.net_deriv.dim_size 1) dm.nloc
          ∧ (dm.nloc * dm.ndescrpt ≤ inp.net_deriv.dim_size 1
            ∧ inp.net_deriv.dim_size 1 < dm.nloc * dm.ndescrpt + dm.nloc)
          ∧ (inp.net_deriv.dim_size 1 = dm.nloc * dm.ndescrpt
              ↔ dm.nloc ∣ inp.net_deriv.dim_size 1)
          ∧ (dm.nloc ∣ inp.net_deriv.dim_size 1 →
              ∀ kk, (frame_iters dm kk).net_iter = kk * inp.net_deriv.dim_size 1))
      ∧ (Int.tdiv (inp.nlist.dim_size 1) dm.nloc < 2147483648 →
        dm.nnei = Int.tdiv (inp.nlist.dim_size 1) dm.nloc
          ∧ (dm.nloc * dm.nnei ≤ inp.nlist.dim_size 1
            ∧ inp.nlist.dim_size 1 < dm.nloc * dm.nnei + dm.nloc)
          ∧ (inp.nlist.dim_size 1 = dm.nloc * dm.nnei ↔ dm.nloc ∣ inp.nlist.dim_size 1)
          ∧ (dm.nloc ∣ inp.nlist.dim_size 1 →
              ∀ kk, (frame_iters dm kk).nlist_iter = kk * inp.nlist.dim_size 1))
      ∧ (inp.in_deriv.dim_size 1 = dm.nloc * dm.ndescrpt * 12
        ∧ ∀ kk, (frame_iters dm kk).in_iter = kk * inp.in_deriv.dim_size 1)
      ∧ (inp.axis.dim_size 1 = dm.nloc * 4
        ∧ ∀ kk, (frame_iters dm kk).axis_iter = kk * inp.axis.dim_size 1) := by
  obtain ⟨hs, rfl⟩ := (resolve_eq_ok_iff op inp dm).1 hres
  obtain ⟨-, -, -, -, -, -, -, -, -, -, hJ, -, hA⟩ := hs
  have hn' : 1 ≤ inp.natoms.flat 0 := hn
  obtain ⟨g0, g1, g2, g3⟩ :=
    tdiv_bounds (inp.net_deriv.dim_size 1) (inp.natoms.flat 0) (dim_size_nonneg _ _) hn'
  obtain ⟨l0, l1, l2, l3⟩ :=
    tdiv_bounds (inp.nlist.dim_size 1) (inp.natoms.flat 0) (dim_size_nonneg _ _) hn'
  refine ⟨?_, ?_, ⟨hJ.symm, ?_⟩, ⟨hA.symm, ?_⟩⟩
  · intro hfit
    have hq : to_int32 (Int.tdiv (inp.net_deriv.dim_size 1) (inp.natoms.flat 0))
        = Int.tdiv (inp.net_deriv.dim_size 1) (inp.natoms.flat 0) :=
      to_int32_of_fits _ (by omega) hfit
    show to_int32 (Int.tdiv (inp.net_deriv.dim_size 1) (inp.natoms.flat 0)) = _
      ∧ (inp.natoms.flat 0 * to_int32 (Int.tdiv (inp.net_deriv.dim_size 1) (inp.natoms.flat 0))
            ≤ _
          ∧ _ < inp.natoms.flat 0
              * to_int32 (Int.tdiv (inp.net_deriv.dim_size 1) (inp.natoms.flat 0))
            + inp.natoms.flat 0)
      ∧ (_ = inp.natoms.flat 0
              * to_int32 (Int.tdiv (inp.net_deriv.dim_size 1) (inp.natoms.flat 0)) ↔ _)
      ∧ (_ → ∀ kk, kk * inp.natoms.flat 0
              * to_int32 (Int.tdiv (inp.net_deriv.dim_size 1) (inp.natoms.flat 0)) = _)
    rw [hq]
    refine ⟨rfl, ⟨g1, g2⟩, g3, ?_⟩
    intro hd kk
    rw [mul_assoc, ← g3.2 hd]
  · intro hfit
    have hq : to_int32 (Int.tdiv (inp.nlist.dim_size 1) (inp.natoms.flat 0))
        = Int.tdiv (inp.nlist.dim_size 1) (inp.natoms.flat 0) :=
      to_int32_of_fits _ (by omega) hfit
    show to_int32 (Int.tdiv (inp.nlist.dim_size 1) (inp.natoms.flat 0)) = _
      ∧ (inp.natoms.flat 0 * to_int32 (Int.tdiv (inp.nlist.dim_size 1) (inp.natoms.flat 0))
            ≤ _
          ∧ _ < inp.natoms.flat 0
              * to_int32 (Int.tdiv (inp.nlist.dim_size 1) (inp.natoms.flat 0))
            + inp.natoms.flat 0)
      ∧ (_ = inp.natoms.flat 0
              * to_int32 (Int.tdiv (inp.nlist.dim_size 1) (inp.natoms.flat 0)) ↔ _)
      ∧ (_ → ∀ kk, kk * inp.natoms.flat 0
              * to_int32 (Int.tdiv (inp.nlist.dim_size 1) (inp.natoms.flat 0)) = _)
    rw [hq]
    refine ⟨rfl, ⟨l1, l2⟩, l3, ?_⟩
    intro hd kk
    rw [mul_assoc, ← l3.2 hd]
  · intro kk
    show kk * inp.natoms.flat 0
        * to_int32 (Int.tdiv (inp.net_deriv.dim_size 1) (inp.natoms.flat 0)) * 12 = _
    rw [← hJ]
    ring
  · intro kk
    show kk * inp.natoms.flat 0 * 4 = _
    rw [← hA]
    ring

/-- Witness of the amended C19: `ragged_inputs`. -/
theorem derived_sizes_truncated_witness :
    resolve (ProdForceOp.construct 1 0 1) ragged_inputs = Except.ok ⟨1, 2, 3, 4, 1⟩
      ∧ (1 : Int) ≤ 2
      ∧ Int.tdiv (ragged_inputs.net_deriv.dim_size 1) 2 < 2147483648
      ∧ ((2 : Int) * 4 ≤ ragged_inputs.net_deriv.dim_size 1
        ∧ ragged_inputs.net_deriv.dim_size 1 < 2 * 4 + 2) :=
  ⟨rfl, by decide, by decide,
    ((derived_sizes_truncated (ProdForceOp.construct 1 0 1) ragged_inputs ⟨1, 2, 3, 4, 1⟩ rfl
      (by decide)).1 (by decide)).2.1⟩

/-! ## Axis slots and descriptor components in range -/

/-- C17, counterexample.  On `narrow_descriptor_inputs` the validation passes with
`nnei = 1`, and the axis record `(0, 5, 0, 5)` of atom 0 resolves to `axis_0 = axis_1 = 5`,
outside `[0, nnei)`. -/
theorem axis_slots_in_range_counterexample :
    resolve (ProdForceOp.construct 1 0 1) narrow_descriptor_inputs
        = Except.ok narrow_descriptor_dims
      ∧ (set_axes (ProdForceOp.construct 1 0 1) narrow_descriptor_inputs.axis.flat
          (frame_iters narrow_descriptor_dims 0) 0).1 = 5
      ∧ (set_axes (ProdForceOp.construct 1 0 1) narrow_descriptor_inputs.axis.flat
          (frame_iters narrow_descriptor_dims 0) 0).2 = 5
      ∧ ¬ ((5 : Int) < narrow_descriptor_dims.nnei) :=
  ⟨rfl, rfl, rfl, by decide⟩

/-- C17, amended.  The validation places no constraint on the axis record.  For every call
that passes validation, every frame `kk` and every atom `i` with axis record
`(type0, id0, type1, id1)`: the resolved `axis_0` lies in `[0, nnei)` if and only if
`type0 = 1` and `-n_a_sel ≤ id0 < n_r_sel`, or `type0 ≠ 1` and `0 ≤ id0 < n_a_sel + n_r_sel`;
likewise for `axis_1` with `(type1, id1)`. -/
theorem axis_slots_in_range_iff (n_a_sel n_r_sel num_threads : Int) (inp : Inputs R)
    (dm : Dims)
    (hres : resolve (ProdForceOp.construct n_a_sel n_r_sel num_threads) inp = Except.ok dm)
    (kk i : Int) :
    ((0 ≤ (set_axes (ProdForceOp.construct n_a_sel n_r_sel num_threads) inp.axis.flat
              (frame_iters dm kk) i).1
        ∧ (set_axes (ProdForceOp.construct n_a_sel n_r_sel num_threads) inp.axis.flat
              (frame_iters dm kk) i).1 < dm.nnei)
      ↔ (inp.axis.flat ((frame_iters dm kk).axis_iter + i * 4 + 0) = 1
            ∧ -n_a_sel ≤ inp.axis.flat ((frame_iters dm kk).axis_iter + i * 4 + 1)
            ∧ inp.axis.flat ((frame_iters dm kk).axis_iter + i * 4 + 1) < n_r_sel)
          ∨ (inp.axis.flat ((frame_iters dm kk).axis_iter + i * 4 + 0) ≠ 1
            ∧ 0 ≤ inp.axis.flat ((frame_iters dm kk).axis_iter + i * 4 + 1)
            ∧ inp.axis.flat ((frame_iters dm kk).axis_iter + i * 4 + 1) < n_a_sel + n_r_sel))
    ∧ ((0 ≤ (set_axes (ProdForceOp.construct n_a_sel n_r_sel num_threads) inp.axis.flat
              (frame_iters dm kk) i).2
        ∧ (set_axes (ProdForceOp.construct n_a_sel n_r_sel num_threads) inp.axis.flat
              (frame_iters dm kk) i).2 < dm.nnei)
      ↔ (inp.axis.flat ((frame_iters dm kk).axis_iter + i * 4 + 2) = 1
            ∧ -n_a_sel ≤ inp.axis.flat ((frame_iters dm kk).axis_iter + i * 4 + 3)
            ∧ inp.axis.flat ((frame_iters dm kk).axis_iter + i * 4 + 3) < n_r_sel)
          ∨ (inp.axis.flat ((frame_iters dm kk).axis_iter + i * 4 + 2) ≠ 1
            ∧ 0 ≤ inp.axis.flat ((frame_iters dm kk).axis_iter + i * 4 + 3)
            ∧ inp.axis.flat ((frame_iters dm kk).axis_iter + i * 4 + 3) < n_a_sel + n_r_sel)) := by
  have hnnei : dm.nnei = n_a_sel + n_r_sel := by
    obtain ⟨hs, rfl⟩ := (resolve_eq_ok_iff _ inp dm).1 hres
    exact hs.2.2.2.2.2.2.2.2.2.2.2.1
  have hsel : (ProdForceOp.construct n_a_sel n_r_sel num_threads).n_a_sel = n_a_sel := rfl
  unfold set_axes
  simp only [hsel, hnnei]
  constructor
  · split_ifs with h <;> omega
  · split_ifs with h <;> omega

/-- Witness of the amended C17: in the scenario of the specification (`n_a_sel = 1`,
`n_r_sel = 0`, every axis record `(0,0,0,0)`) the resolved `axis_0` of atom 0 is in range. -/
theorem axis_slots_in_range_iff_witness :
    resolve (ProdForceOp.construct 1 0 1) (scenario_inputs (fun k => (k : Int)))
        = Except.ok scenario_dims
      ∧ (0 ≤ (set_axes (ProdForceOp.construct 1 0 1)
              (scenario_inputs (fun k => (k : Int))).axis.flat
              (frame_iters scenario_dims 0) 0).1
        ∧ (set_axes (ProdForceOp.construct 1 0 1)
              (scenario_inputs (fun k => (k : Int))).axis.flat
              (frame_iters scenario_dims 0) 0).1 < scenario_dims.nnei) :=
  ⟨rfl,
    ((axis_slots_in_range_iff 1 0 1 (scenario_inputs (fun k => (k : Int))) scenario_dims rfl
      0 0).1).2 (Or.inr ⟨by decide, by decide, by decide⟩)⟩

theorem flat_index_bounds (nframes nloc nd w kk i a : Int) (hkk0 : 0 ≤ kk) (hkk : kk < nframes)
    (hi0 : 0 ≤ i) (hi : i < nloc) (ha0 : 0 ≤ a) (ha : a < nd) (hw : nloc * nd ≤ w) :
    0 ≤ kk * nloc * nd + i * nd + a ∧ kk * nloc * nd + i * nd + a < nframes * w := by
  have hnd : 0 ≤ nd := by omega
  have hN : 0 ≤ nloc * nd := mul_nonneg (by omega) hnd
  have h1 : 0 ≤ (nloc - i - 1) * nd := mul_nonneg (by omega) hnd
  have h2 : 0 ≤ (nframes - kk - 1) * (nloc * nd) := mul_nonneg (by omega) hN
  have h3 : 0 ≤ nframes * (w - nloc * nd) := mul_nonneg (by omega) (by omega)
  have h4 : 0 ≤ kk * (nloc * nd) := mul_nonneg hkk0 hN
  have h5 : 0 ≤ i * nd := mul_nonneg hi0 hnd
  constructor
  · nlinarith
  · nlinarith

theorem mdr_in_range (op : ProdForceOp) (hs : op.n_a_shift = op.n_a_sel * 4)
    (ha : 0 ≤ op.n_a_sel) (nd jj : Int) (hnd : 4 * op.n_a_sel + op.n_r_sel ≤ nd)
    (hjj0 : 0 ≤ jj) (hjj : jj < op.n_a_sel + op.n_r_sel) :
    0 ≤ (make_descript_range op jj).1
      ∧ (make_descript_range op jj).1 < (make_descript_range op jj).2
      ∧ (make_descript_range op jj).2 ≤ nd := by
  rw [mdr_fst op hs, mdr_snd op hs]
  split_ifs <;> omega

/-- C13, counterexample.  On `narrow_descriptor_inputs` (`nloc = 1`, `n_a_sel = 1`,
`n_r_sel = 0`, descriptor-gradient width 1) the validation passes with `ndescrpt = 1`; slot 0
of atom 0 holds atom 0 and is no axis slot, so its loop runs over
`make_descript_range = [0, 4)` and uses the component 3, which is not below `ndescrpt`; the
read of the descriptor gradient is at flat index 3 of a tensor of one entry, and the returned
force depends on the value found there. -/
theorem reads_in_row_counterexample :
    resolve (ProdForceOp.construct 1 0 1) narrow_descriptor_inputs
        = Except.ok narrow_descriptor_dims
      ∧ 1 ≤ narrow_descriptor_dims.nloc
      ∧ 0 ≤ target_slot narrow_descriptor_inputs.nlist.flat narrow_descriptor_dims
          (frame_iters narrow_descriptor_dims 0) 0 0
      ∧ make_descript_range (ProdForceOp.construct 1 0 1) 0 = (0, 4)
      ∧ 3 ∈ used_range (ProdForceOp.construct 1 0 1) narrow_descriptor_dims
          (set_axes (ProdForceOp.construct 1 0 1) narrow_descriptor_inputs.axis.flat
            (frame_iters narrow_descriptor_dims 0) 0).1
          (set_axes (ProdForceOp.construct 1 0 1) narrow_descriptor_inputs.axis.flat
            (frame_iters narrow_descriptor_dims 0) 0).2 0
      ∧ ¬ ((3 : Int) < narrow_descriptor_dims.ndescrpt)
      ∧ ¬ ((frame_iters narrow_descriptor_dims 0).net_iter + 0 * narrow_descriptor_dims.ndescrpt
            + 3 < narrow_descriptor_inputs.net_deriv.dim_size 0
              * narrow_descriptor_inputs.net_deriv.dim_size 1)
      ∧ (kernel (ProdForceOp.construct 1 0 1)
            (with_gradient narrow_descriptor_inputs (fun k => if k = 3 then 100 else 1))
            narrow_descriptor_dims ⟨fun _ => 0, []⟩).force 0
          ≠ (kernel (ProdForceOp.construct 1 0 1) narrow_descriptor_inputs
            narrow_descriptor_dims ⟨fun _ => 0, []⟩).force 0 :=
  ⟨rfl, by decide, by decide, rfl, by decide, by decide, by decide, by decide⟩

/-- C13, amended.  For every call that passes validation with `nloc ≥ 1`, `n_a_sel ≥ 0` and
`4*n_a_sel + n_r_sel ≤ ndescrpt` (a relation the validation does not check): every range
returned by `make_descript_range` for a slot `jj` in `[0, nnei)` lies in `[0, ndescrpt]`, so
every descriptor component `a` used for a slot (full range for axis slots,
`make_descript_range` for generic slots) satisfies `0 ≤ a < ndescrpt`; and for every frame
`kk`, local atom `i` and such component `a`, the descriptor-gradient read is inside the
segment `[i*ndescrpt, (i+1)*ndescrpt)` of atom `i` after the frame offset and inside the
tensor, and the twelve Jacobian entries of `(i, a)` are inside the `12*ndescrpt`-wide segment
of atom `i` after the frame offset and inside the tensor. -/
theorem reads_in_row (n_a_sel n_r_sel num_threads : Int) (inp : Inputs R) (dm : Dims)
    (hres : resolve (ProdForceOp.construct n_a_sel n_r_sel num_threads) inp = Except.ok dm)
    (hn : 1 ≤ dm.nloc) (ha : 0 ≤ n_a_sel) (hnd : 4 * n_a_sel + n_r_sel ≤ dm.ndescrpt) :
    (∀ jj, 0 ≤ jj → jj < dm.nnei →
        0 ≤ (make_descript_range (ProdForceOp.construct n_a_sel n_r_sel num_threads) jj).1
          ∧ (make_descript_range (ProdForceOp.construct n_a_sel n_r_sel num_threads) jj).2
              ≤ dm.ndescrpt)
      ∧ (∀ axis_0 axis_1 jj a, 0 ≤ jj → jj < dm.nnei →
          a ∈ used_range (ProdForceOp.construct n_a_sel n_r_sel num_threads) dm axis_0 axis_1 jj →
          0 ≤ a ∧ a < dm.ndescrpt)
      ∧ (∀ kk i a, 0 ≤ kk → kk < dm.nframes → 0 ≤ i → i < dm.nloc → 0 ≤ a → a < dm.ndescrpt →
          ((frame_iters dm kk).net_iter + i * dm.ndescrpt
              ≤ (frame_iters dm kk).net_iter + i * dm.ndescrpt + a
            ∧ (frame_iters dm kk).net_iter + i * dm.ndescrpt + a
              < (frame_iters dm kk).net_iter + (i + 1) * dm.ndescrpt
            ∧ 0 ≤ (frame_iters dm kk).net_iter + i * dm.ndescrpt + a
            ∧ (frame_iters dm kk).net_iter + i * dm.ndescrpt + a
              < inp.net_deriv.dim_size 0 * inp.net_deriv.dim_size 1)
          ∧ ∀ c, 0 ≤ c → c < 12 →
            (frame_iters dm kk).in_iter + i * dm.ndescrpt * 12
                ≤ (frame_iters dm kk).in_iter + i * dm.ndescrpt * 12 + a * 12 + c
              ∧ (frame_iters dm kk).in_iter + i * dm.ndescrpt * 12 + a * 12 + c
                < (frame_iters dm kk).in_iter + (i + 1) * dm.ndescrpt * 12
              ∧ 0 ≤ (frame_iters dm kk).in_iter + i * dm.ndescrpt * 12 + a * 12 + c
              ∧ (frame_iters dm kk).in_iter + i * dm.ndescrpt * 12 + a * 12 + c
                < inp.in_deriv.dim_size 0 * inp.in_deriv.dim_size 1) := by
  have hsel : (ProdForceOp.construct n_a_sel n_r_sel num_threads).n_a_sel = n_a_sel := rfl
  have hrel : (ProdForceOp.construct n_a_sel n_r_sel num_threads).n_r_sel = n_r_sel := rfl
  obtain ⟨hs, hdm⟩ := (resolve_eq_ok_iff _ inp dm).1 hres
  obtain ⟨-, -, -, -, -, -, -, hf, -, -, hJ, hnn, -⟩ := hs
  have hnnei : dm.nnei = n_a_sel + n_r_sel := by rw [hdm]; exact hnn
  have hframes : dm.nframes ≤ inp.net_deriv.dim_size 0 := by
    rw [hdm]
    exact to_int32_le _ (dim_size_nonneg _ _)
  have hfJ : inp.in_deriv.dim_size 0 = dm.nframes := by rw [hdm]; exact hf.symm
  have hJw : inp.in_deriv.dim_size 1 = dm.nloc * dm.ndescrpt * 12 := by rw [hdm]; exact hJ.symm
  have hgw : 0 < dm.ndescrpt → dm.nloc * dm.ndescrpt ≤ inp.net_deriv.dim_size 1 := by
    intro hpos
    have hn1 : 1 ≤ inp.natoms.flat 0 := by rw [hdm] at hn; exact hn
    obtain ⟨q0, q1, -, -⟩ :=
      tdiv_bounds (inp.net_deriv.dim_size 1) (inp.natoms.flat 0) (dim_size_nonneg _ _) hn1
    have hq := to_int32_le _ q0
    have hmul : inp.natoms.flat 0
          * to_int32 (Int.tdiv (inp.net_deriv.dim_size 1) (inp.natoms.flat 0))
        ≤ inp.natoms.flat 0 * Int.tdiv (inp.net_deriv.dim_size 1) (inp.natoms.flat 0) :=
      mul_le_mul_of_nonneg_left hq (by omega)
    rw [hdm]
    exact le_trans hmul q1
  have hmdr : ∀ jj, 0 ≤ jj → jj < dm.nnei →
      0 ≤ (make_descript_range (ProdForceOp.construct n_a_sel n_r_sel num_threads) jj).1
        ∧ (make_descript_range (ProdForceOp.construct n_a_sel n_r_sel num_threads) jj).1
            < (make_descript_range (ProdForceOp.construct n_a_sel n_r_sel num_threads) jj).2
        ∧ (make_descript_range (ProdForceOp.construct n_a_sel n_r_sel num_threads) jj).2
            ≤ dm.ndescrpt := by
    intro jj h0 h1
    exact mdr_in_range _ rfl (by rw [hsel]; exact ha) dm.ndescrpt jj
      (by rw [hsel, hrel]; exact hnd) h0 (by rw [hsel, hrel, ← hnnei]; exact h1)
  refine ⟨fun jj h0 h1 => ⟨(hmdr jj h0 h1).1, (hmdr jj h0 h1).2.2⟩, ?_, ?_⟩
  · intro axis_0 axis_1 jj a h0 h1 hmem
    unfold used_range at hmem
    have := hmdr jj h0 h1
    split_ifs at hmem <;> rw [Finset.mem_Ico] at hmem <;> omega
  · intro kk i a hkk0 hkk hi0 hi ha0 haa
    have hb := flat_index_bounds (inp.net_deriv.dim_size 0) dm.nloc dm.ndescrpt
      (inp.net_deriv.dim_size 1) kk i a hkk0 (lt_of_lt_of_le hkk hframes) hi0 hi ha0 haa
      (hgw (by omega))
    have hb' := flat_index_bounds dm.nframes dm.nloc dm.ndescrpt (dm.nloc * dm.ndescrpt)
      kk i a hkk0 hkk hi0 hi ha0 haa (le_refl _)
    have hnet : (frame_iters dm kk).net_iter = kk * dm.nloc * dm.ndescrpt := rfl
    have hin : (frame_iters dm kk).in_iter = kk * dm.nloc * dm.ndescrpt * 12 := rfl
    rw [hnet, hin, hfJ, hJw]
    refine ⟨⟨by omega, by linarith, hb.1, hb.2⟩, ?_⟩
    intro c hc0 hc
    refine ⟨by omega, by linarith, by linarith [hb'.1], ?_⟩
    have e : dm.nframes * (dm.nloc * dm.ndescrpt * 12)
        = 12 * (dm.nframes * (dm.nloc * dm.ndescrpt)) := by ring
    rw [e]
    linarith [hb'.2]

/-- Witness of the amended C13: the scenario of the specification (`n_a_sel = 1`,
`n_r_sel = 0`, `ndescrpt = 4`). -/
theorem reads_in_row_witness :
    resolve (ProdForceOp.construct 1 0 1) (scenario_inputs (fun k => (k : Int)))
        = Except.ok scenario_dims
      ∧ 1 ≤ scenario_dims.nloc ∧ (0 : Int) ≤ 1 ∧ (4 : Int) * 1 + 0 ≤ scenario_dims.ndescrpt
      ∧ (0 ≤ (make_descript_range (ProdForceOp.construct 1 0 1) 0).1
          ∧ (make_descript_range (ProdForceOp.construct 1 0 1) 0).2 ≤ scenario_dims.ndescrpt) :=
  ⟨rfl, by decide, by decide, by decide,
    (reads_in_row 1 0 1 (scenario_inputs (fun k => (k : Int))) scenario_dims rfl (by decide)
      (by decide) (by decide)).1 0 (by decide) (by decide)⟩

/-! ## Writes outside the output, shared iterators -/

/-- C18, evaluation at the failing input.  On `no_ghost_inputs` (accepted, `nframes = 1`,
`nloc = nall = 1`) the output has `nframes*3*nall = 3` entries, and the neighbor entry
`1 = nloc`, which the fold leaves as it is, makes the kernel write the flat indices 3, 4
and 5. -/
theorem writes_in_bounds_failing_input :
    resolve (ProdForceOp.construct 1 0 1) no_ghost_inputs = Except.ok no_ghost_dims
      ∧ 1 ≤ no_ghost_dims.nframes ∧ 1 ≤ no_ghost_dims.nloc
      ∧ no_ghost_dims.nloc ≤ no_ghost_dims.nall
      ∧ no_ghost_dims.nframes * 3 * no_ghost_dims.nall = 3
      ∧ 3 ∈ (kernel (ProdForceOp.construct 1 0 1) no_ghost_inputs no_ghost_dims
          ⟨fun _ => 0, []⟩).written
      ∧ 4 ∈ (kernel (ProdForceOp.construct 1 0 1) no_ghost_inputs no_ghost_dims
          ⟨fun _ => 0, []⟩).written
      ∧ 5 ∈ (kernel (ProdForceOp.construct 1 0 1) no_ghost_inputs no_ghost_dims
          ⟨fun _ => 0, []⟩).written :=
  ⟨rfl, by decide, by decide, by decide, by decide, by decide, by decide, by decide⟩

/-- With two frames, the events of worker 0 followed by the events of worker 1 are the
sequential kernel. -/
theorem sequential_events_eq_kernel (op : ProdForceOp) (inp : Inputs R) (dm : Dims)
    (init : Int → R) (h2 : dm.nframes = 2) :
    (run_events op inp dm init
        [WorkerEvent.assign_iters 0, WorkerEvent.run_body,
          WorkerEvent.assign_iters 1, WorkerEvent.run_body]).force
      = kernel op inp dm ⟨init, []⟩ := by
  unfold kernel forLoop
  rw [h2]
  rfl

/-- C12, evaluation at the failing input.  On `two_frame_inputs` with `num_threads = 2` and
the buffer initially 7 everywhere, the schedule in which worker 0 and then worker 1 assign
the shared iterators before either runs its body leaves both bodies working on frame 1: the
entry at flat index 0 is never written and stays 7, whereas the sequential order gives -1. -/
theorem shared_iterators_failing_schedule :
    resolve (ProdForceOp.construct 0 0 2) two_frame_inputs = Except.ok two_frame_dims
      ∧ (run_events (ProdForceOp.construct 0 0 2) two_frame_inputs two_frame_dims (fun _ => 7)
          [WorkerEvent.assign_iters 0, WorkerEvent.run_body,
            WorkerEvent.assign_iters 1, WorkerEvent.run_body]).force
        = kernel (ProdForceOp.construct 0 0 2) two_frame_inputs two_frame_dims
            ⟨fun _ => 7, []⟩
      ∧ (kernel (ProdForceOp.construct 0 0 2) two_frame_inputs two_frame_dims
          ⟨fun _ => 7, []⟩).force 0 = -1
      ∧ (run_events (ProdForceOp.construct 0 0 2) two_frame_inputs two_frame_dims (fun _ => 7)
          [WorkerEvent.assign_iters 0, WorkerEvent.assign_iters 1,
            WorkerEvent.run_body, WorkerEvent.run_body]).force.force 0 = 7 :=
  ⟨rfl, sequential_events_eq_kernel _ _ _ _ rfl, by decide, by decide⟩

end Kernel

end ProdForce
